import Mathlib

/-
Verification of the Skylark BI data-cleaning layer and agent loop.

Shallow embedding of `backend/data_cleaner.py` and `backend/agent.py`.
Python dynamic values are modelled by `PyVal`; pandas DataFrames by a
column-major `DF` carrying, per column, the dtype information that the
pandas `.str` accessor validity check depends on.  Machine floats are
modelled by exact rationals plus explicit NaN / infinity markers; exact
binary rounding of Python floats is idealised to exact rational
arithmetic.  Fallible Python code (exceptions) is modelled with
`Except String`.
-/

set_option autoImplicit false

namespace Skylark

/-- Dynamic (Python-style) value: strings, finite numbers (int or float,
as exact rationals), booleans, `None`, float NaN, float infinities, and
the list/dict shapes that appear in tool payloads.  `nan` is also used
for the missing-cell marker pandas inserts for absent keys. -/
inductive PyVal where
  | s (v : String)
  | num (q : ℚ)
  | b (v : Bool)
  | pynone
  | nan
  | inf (neg : Bool)
  | list (xs : List PyVal)
  | dict (fs : List (String × PyVal))

/-- A raw row: a Python dict from field label to value (insertion order). -/
abbrev RawRow := List (String × PyVal)

/-- Whether the first character list starts the second. -/
def isPrefOf : List Char → List Char → Bool
  | [], _ => true
  | _ :: _, [] => false
  | a :: as, b :: bs => a = b && isPrefOf as bs

/-- Whether the first character list occurs inside the second. -/
def isInsideOf (needle : List Char) : List Char → Bool
  | [] => needle.isEmpty
  | c :: cs => isPrefOf needle (c :: cs) || isInsideOf needle cs

/-- Python `sub in s` substring test. -/
def pyIn (needle hay : String) : Bool :=
  isInsideOf needle.toList hay.toList

/-- Python `str.lower()` (the strings in this system are ASCII). -/
def pyLower (s : String) : String :=
  String.mk (s.toList.map Char.toLower)

/-- Python `str.strip()` (ASCII whitespace). -/
def pyStrip (s : String) : String :=
  String.mk ((((s.toList.dropWhile Char.isWhitespace).reverse).dropWhile Char.isWhitespace).reverse)

/-- Python `str.title()`: a letter is uppercased when the previous
character is not a letter, lowercased otherwise. -/
def titleChars : Bool → List Char → List Char
  | _, [] => []
  | prevAlpha, c :: cs =>
    let c' := if c.isAlpha then (if prevAlpha then c.toLower else c.toUpper) else c
    c' :: titleChars c.isAlpha cs

/-- Python `str.title()` on a whole string. -/
def pyTitle (s : String) : String :=
  String.mk (titleChars false s.toList)

/-- Characters removed by `re.sub(r"[₹$€£,\s]", "", ...)` in `parse_number`. -/
def isStrippedChar (c : Char) : Bool :=
  c = '₹' || c = '$' || c = '€' || c = '£' || c = ',' || c.isWhitespace

/-- The `re.sub(r"[₹$€£,\s]", "", str(value))` step of `parse_number`. -/
def stripCurrency (s : String) : String :=
  String.mk (s.toList.filter (fun c => !(isStrippedChar c)))

/-- Python truthiness (`if not x`). NaN and infinities are truthy. -/
def pyFalsy : PyVal → Bool
  | .pynone => true
  | .s v => v = ""
  | .num q => q = 0
  | .b v => !v
  | .nan => false
  | .inf _ => false
  | .list xs => xs.isEmpty
  | .dict fs => fs.isEmpty

/-- Whether a cell is missing for pandas (`isna`): `None` or float NaN. -/
def isNA : PyVal → Bool
  | .pynone => true
  | .nan => true
  | _ => false

/-- Whether a cell is a Python `str`. -/
def isStrCell : PyVal → Bool
  | .s _ => true
  | _ => false

/-- Python `str()` of a value.  For numbers the exact digit rendering is
irrelevant downstream: the only consumers are the letter-dot-prefix test
and lowercase-keyword searches of `normalise_stage` / `stage_group`, and
a numeric rendering contains no letters, so a plain `Rat` rendering is
used.  Lists/dicts are never stringified on any reachable path here. -/
def pyStr : PyVal → String
  | .s v => v
  | .pynone => "None"
  | .nan => "nan"
  | .inf neg => if neg then "-inf" else "inf"
  | .b v => if v then "True" else "False"
  | .num q => toString q
  | .list _ => "[...]"
  | .dict _ => "\x7b...\x7d"

/-- Value of a digit run (most significant first). -/
def digitsVal (ds : List Char) : ℕ :=
  ds.foldl (fun a c => a * 10 + (c.toNat - 48)) 0

/-- Exponent part of a Python float literal: optional sign then digits. -/
def parseExpPart (cs : List Char) : Option ℤ :=
  match cs with
  | '+' :: ds => if !ds.isEmpty && ds.all Char.isDigit then some (digitsVal ds : ℤ) else none
  | '-' :: ds => if !ds.isEmpty && ds.all Char.isDigit then some (-(digitsVal ds : ℤ)) else none
  | ds => if !ds.isEmpty && ds.all Char.isDigit then some (digitsVal ds : ℤ) else none

/-- Mantissa (digits, optional point, optional exponent) of a Python
float literal, e.g. `123`, `123.45`, `.5`, `1.5e-3`, as an unreduced
numerator/denominator pair: the exact value `(ip + fp/10^flen) * 10^k`. -/
def parseMantExp (cs : List Char) : Option (ℤ × ℕ) :=
  let intPart := cs.takeWhile Char.isDigit
  let rest := cs.dropWhile Char.isDigit
  let finish (ip fp flen : ℕ) (tail : List Char) : Option (ℤ × ℕ) :=
    let mant : ℤ := (ip * 10 ^ flen + fp : ℕ)
    match tail with
    | [] => some (mant, 10 ^ flen)
    | e :: ds =>
      if e = 'e' || e = 'E' then
        (parseExpPart ds).map (fun k =>
          if 0 ≤ k then (mant * 10 ^ k.toNat, 10 ^ flen)
          else (mant, 10 ^ flen * 10 ^ (-k).toNat))
      else none
  match rest with
  | '.' :: rest2 =>
    let frac := rest2.takeWhile Char.isDigit
    let rest3 := rest2.dropWhile Char.isDigit
    if intPart.isEmpty && frac.isEmpty then none
    else finish (digitsVal intPart) (digitsVal frac) frac.length rest3
  | _ =>
    if intPart.isEmpty then none else finish (digitsVal intPart) 0 0 rest

/-- Python `float(s)` on a string: optional sign, then a decimal mantissa
with optional exponent, or case-insensitive `inf` / `infinity` / `nan`.
Returns `none` on `ValueError`.  (Digit-group underscores, a Python 3.6
nicety never exercised here, are not modelled.) -/
def splitSign : List Char → Bool × List Char
  | '+' :: r => (false, r)
  | '-' :: r => (true, r)
  | r => (false, r)

def pyFloat? (s : String) : Option PyVal :=
  let neg := (splitSign s.toList).1
  let cs := (splitSign s.toList).2
  let low := cs.map Char.toLower
  if low = "inf".toList || low = "infinity".toList then some (.inf neg)
  else if low = "nan".toList then some .nan
  else (parseMantExp cs).map (fun p => .num (mkRat (if neg then -p.1 else p.1) p.2))

/-- data_cleaner.parse_number, lifted to dynamic values (it is applied
cell-wise by `.apply`).  `pynone` models a `None` result.  A finite
float/int input round-trips through `str` and `float` to itself, which
the `.num` case states directly. -/
def parse_number (v : PyVal) : PyVal :=
  match v with
  | .pynone => .pynone
  | .nan => .pynone
  | .num q => .num q
  | .inf neg => .inf neg
  | .b _ => .pynone
  | .list _ => .pynone
  | .dict _ => .pynone
  | .s v =>
    let t := pyStrip (stripCurrency v)
    if t = "" then .pynone else (pyFloat? t).getD .pynone

-- ── Constants from data_cleaner.py ─────────────────────────────────────

/-- DEAL_STAGE_MAP: the 15-entry letter-coded stage vocabulary. -/
def DEAL_STAGE_MAP : List (Char × String) :=
  [ ('a', "A – Lead Generated"),
    ('b', "B – Sales Qualified Lead"),
    ('c', "C – Demo Done"),
    ('d', "D – Feasibility"),
    ('e', "E – Proposal/Commercials Sent"),
    ('f', "F – Negotiations"),
    ('g', "G – Project Won"),
    ('h', "H – Work Order Received"),
    ('i', "I – POC"),
    ('j', "J – Invoice Sent"),
    ('k', "K – Amount Accrued"),
    ('l', "L – Project Lost"),
    ('m', "M – Projects On Hold"),
    ('n', "N – Not Relevant At The Moment"),
    ('o', "O – Not Relevant At All") ]

def SENTINEL_DEAL_STATUS : List String := ["deal status", "deal_status"]
def SENTINEL_DEAL_STAGE : List String := ["deal stage", "deal_stage"]
def SENTINEL_SECTOR : List String := ["sector/service", "sector"]

def ACTIVE_DEAL_STATUSES : List String := ["open"]
def WON_DEAL_STATUSES : List String := ["won"]
def DEAD_DEAL_STATUSES : List String := ["dead", "lost", "project lost"]
def ON_HOLD_STATUSES : List String := ["on hold", "hold"]

def COMPLETED_WO_STATUSES : List String := ["completed"]
def ONGOING_WO_STATUSES : List String :=
  ["ongoing", "in progress", "executed until current month",
   "partial completed", "pause / struck", "details pending from client"]

-- ── Deal stage normalisation ───────────────────────────────────────────

/-- The `re.match(r"^([a-zA-Z])\.", str(stage).strip())` test: a lowered
letter code when the stripped string starts with an ASCII letter followed
by a dot. -/
def letterDotCode (s : String) : Option Char :=
  match (pyStrip s).toList with
  | c :: '.' :: _ =>
    if ('a' ≤ c && c ≤ 'z') || ('A' ≤ c && c ≤ 'Z') then some c.toLower else none
  | _ => none

/-- data_cleaner.normalise_stage on a cell value. -/
def normalise_stage (stage : PyVal) : PyVal :=
  if pyFalsy stage then .pynone
  else
    match letterDotCode (pyStr stage) with
    | some code =>
      match DEAL_STAGE_MAP.lookup code with
      | some label => .s label
      | none => stage
    | none => stage

/-- Whether `s` contains any of the keywords (`any(x in s for x in ...)`). -/
def containsAny (s : String) (keys : List String) : Bool :=
  keys.any (fun k => pyIn k s)

/-- data_cleaner.stage_group on a cell value. -/
def stage_group (stage : PyVal) : String :=
  if pyFalsy stage then "Unknown"
  else
    let s := pyLower (pyStr stage)
    if containsAny s ["lead generated", "sales qualified"] then "Early Stage"
    else if containsAny s ["demo", "feasibility"] then "Qualification"
    else if containsAny s ["proposal", "negotiat", "poc"] then "Active Pursuit"
    else if containsAny s ["work order", "project won", "invoice", "amount accrued"] then "Won/Execution"
    else if containsAny s ["lost", "not relevant", "on hold"] then "Closed/Inactive"
    else "Other"

/-- data_cleaner.normalise_sector on a cell value. -/
def normalise_sector (sector : PyVal) : PyVal :=
  if pyFalsy sector then .pynone
  else
    let t := pyStrip (pyStr sector)
    if SENTINEL_SECTOR.contains (pyLower t) then .pynone
    else .s (pyTitle t)

-- ── DataFrame model ────────────────────────────────────────────────────

structure Col where
  name : String
  /-- Whether the column has a non-object numpy dtype (numeric/bool), on
  which the pandas `.str` accessor always raises.  Fixed when the frame
  is built from records; preserved by row slicing.  Derived columns
  assigned by `setCol` are never read through `.str` with a non-object
  dtype on any reachable path, so `setCol` marks them object. -/
  numeric : Bool
  cells : List PyVal

structure DF where
  nrows : ℕ
  cols : List Col

def emptyDF : DF := ⟨0, []⟩

/-- Column labels in order. -/
def colNames (cs : List Col) : List String := cs.map Col.name

/-- Union of row keys in first-seen order (pd.DataFrame column inference). -/
def collectCols (rows : List RawRow) : List String :=
  rows.foldl (fun acc r => r.foldl (fun a p => if a.contains p.1 then a else a ++ [p.1]) acc) []

/-- Values that keep a column on a non-object (numeric/bool) dtype. -/
def numericish : PyVal → Bool
  | .num _ => true
  | .nan => true
  | .b _ => true
  | .inf _ => true
  | _ => false

/-- Non-object dtype inference for a freshly built column. -/
def colNumeric (cells : List PyVal) : Bool :=
  !cells.isEmpty && cells.all numericish

/-- pd.DataFrame(rows): columns from the key union, missing keys as NaN. -/
def DF.ofRecords (rows : List RawRow) : DF :=
  ⟨rows.length,
   (collectCols rows).map (fun n =>
     let cells := rows.map (fun r => (r.lookup n).getD .nan)
     ⟨n, colNumeric cells, cells⟩)⟩

/-- df.rename(columns=...). -/
def DF.rename (df : DF) (f : String → String) : DF :=
  ⟨df.nrows, df.cols.map (fun c => ⟨f c.name, c.numeric, c.cells⟩)⟩

/-- The duplicate-column drop `df.loc[:, ~df.columns.duplicated(keep=last)]`:
keep a column iff its label does not occur again further right. -/
def dedupKeepLast : List Col → List Col
  | [] => []
  | c :: cs => if (colNames cs).contains c.name then dedupKeepLast cs else c :: dedupKeepLast cs

def DF.dedupLast (df : DF) : DF := ⟨df.nrows, dedupKeepLast df.cols⟩

def DF.hasCol (df : DF) (n : String) : Bool := (colNames df.cols).contains n

/-- The ensure-required-columns loop: `df[col] = None` for each absent
column (appended at the end, object dtype, all None). -/
def DF.ensure (df : DF) (names : List String) : DF :=
  names.foldl
    (fun d n =>
      if d.hasCol n then d
      else ⟨d.nrows, d.cols ++ [⟨n, false, List.replicate d.nrows .pynone⟩]⟩)
    df

def DF.col? (df : DF) (n : String) : Option Col := df.cols.find? (fun c => c.name == n)

/-- df[n] (total model; all reachable accesses are to present columns). -/
def DF.colD (df : DF) (n : String) : Col :=
  (df.col? n).getD ⟨n, false, List.replicate df.nrows .nan⟩

/-- Validity of the pandas `.str` accessor: object dtype and, skipping
missing values, either no values at all or at least one string
(pandas allows inferred types string/empty/mixed/mixed-integer). -/
def strOK (c : Col) : Bool :=
  !c.numeric && (c.cells.all isNA || c.cells.any isStrCell)

/-- The `.str` accessor: the cells, or the pandas AttributeError. -/
def DF.strCol (df : DF) (n : String) : Except String (List PyVal) :=
  let c := df.colD n
  if strOK c then .ok c.cells
  else .error "AttributeError: Can only use .str accessor with string values!"

/-- df[col] = cells (replace in place, else append at the end). -/
def setColIn (name : String) (cells : List PyVal) : List Col → List Col
  | [] => [⟨name, false, cells⟩]
  | c :: cs => if c.name == name then ⟨name, false, cells⟩ :: cs else c :: setColIn name cells cs

def DF.setCol (df : DF) (name : String) (cells : List PyVal) : DF :=
  ⟨df.nrows, setColIn name cells df.cols⟩

/-- Boolean row-mask application (keep rows where the mask is true). -/
def applyMask (keep : List Bool) (cells : List PyVal) : List PyVal :=
  ((keep.zip cells).filter (fun p => p.1)).map (fun p => p.2)

/-- df[mask].reset_index(drop=True): row slice; dtypes are preserved. -/
def DF.filterRows (df : DF) (keep : List Bool) : DF :=
  ⟨keep.count true, df.cols.map (fun c => ⟨c.name, c.numeric, applyMask keep c.cells⟩)⟩

/-- One cell of series.str.lower().isin(S): False on non-strings. -/
def lowerIsin (S : List String) : PyVal → Bool
  | .s v => S.contains (pyLower v)
  | _ => false

/-- series.str.lower().isin(S) as a boolean mask. -/
def strLowerIsin (cells : List PyVal) (S : List String) : List Bool :=
  cells.map (lowerIsin S)

/-- .str.strip().str.title() cell-wise: non-strings become NaN. -/
def strStripTitle : PyVal → PyVal
  | .s v => .s (pyTitle (pyStrip v))
  | _ => .nan

/-- .str.strip() cell-wise: non-strings become NaN. -/
def strStrip : PyVal → PyVal
  | .s v => .s (pyStrip v)
  | _ => .nan

/-- One cell of .str.lower().isin(S), as stored by the flag columns. -/
def cellLowerIsin (S : List String) (c : PyVal) : PyVal :=
  .b (lowerIsin S c)

/-- series.fillna(0.0) cell-wise. -/
def fillnaZero (c : PyVal) : PyVal := if isNA c then .num 0 else c

-- ── Column renaming rules ──────────────────────────────────────────────

/-- The `col.lower().replace(" ", "_")` key both renamers branch on. -/
def lcKey (s : String) : String :=
  String.mk ((pyLower s).toList.map (fun c => if c = ' ' then '_' else c))

/-- One ordered renaming rule: a predicate on the lowered key and the
canonical name it assigns. -/
abbrev RenameRule := (String → Bool) × String

/-- Top-to-bottom first-match evaluation of an if/elif renaming chain,
falling back to the raw column name. -/
def applyRules (lc : String) (dflt : String) : List RenameRule → String
  | [] => dflt
  | (p, canon) :: rest => if p lc then canon else applyRules lc dflt rest

/-- The elif chain of clean_deals (data_cleaner.py lines 134-159), one
rule per branch in source order. -/
def dealRenameRules : List RenameRule :=
  [ (fun lc => lc == "deal_name" || lc == "_name", "deal_name"),
    (fun lc => pyIn "owner" lc, "owner_code"),
    (fun lc => pyIn "client" lc || pyIn "company" lc, "client_code"),
    (fun lc => lc == "deal_status", "status"),
    (fun lc => pyIn "close_date" lc && !pyIn "tentative" lc && !pyIn "actual" lc, "close_date_actual"),
    (fun lc => pyIn "closure_probability" lc || pyIn "probability" lc, "closure_probability"),
    (fun lc => pyIn "masked_deal_value" lc || pyIn "deal_value" lc || pyIn "value" lc, "deal_value_raw"),
    (fun lc => pyIn "tentative" lc && pyIn "close" lc, "tentative_close_date"),
    (fun lc => lc == "deal_stage", "stage_raw"),
    (fun lc => pyIn "product" lc, "product"),
    (fun lc => pyIn "sector" lc || pyIn "service" lc, "sector_raw"),
    (fun lc => pyIn "created" lc, "created_date") ]

/-- clean_deals column renaming. -/
def renameDeal (col : String) : String := applyRules (lcKey col) col dealRenameRules

/-- The elif chain of clean_workorders (data_cleaner.py lines 206-245),
one rule per branch in source order. -/
def woRenameRules : List RenameRule :=
  [ (fun lc => pyIn "deal_name" lc || lc == "_name", "deal_name"),
    (fun lc => pyIn "customer" lc || (pyIn "company" lc && pyIn "name" lc), "customer_code"),
    (fun lc => pyIn "serial" lc, "serial_no"),
    (fun lc => pyIn "nature" lc, "nature_of_work"),
    (fun lc => pyIn "execution_status" lc, "execution_status"),
    (fun lc => pyIn "sector" lc, "sector_raw"),
    (fun lc => pyIn "type_of_work" lc, "type_of_work"),
    (fun lc => pyIn "amount" lc && pyIn "excl" lc && !pyIn "billed" lc && !pyIn "be_billed" lc, "amount_excl_gst_raw"),
    (fun lc => pyIn "amount" lc && pyIn "incl" lc && !pyIn "billed" lc && !pyIn "be_billed" lc && !pyIn "collected" lc, "amount_incl_gst_raw"),
    (fun lc => pyIn "billed_value" lc && pyIn "excl" lc, "billed_excl_gst_raw"),
    (fun lc => pyIn "billed_value" lc && pyIn "incl" lc, "billed_incl_gst_raw"),
    (fun lc => pyIn "collected_amount" lc || (pyIn "collected" lc && pyIn "amount" lc), "collected_raw"),
    (fun lc => pyIn "amount_receivable" lc || pyIn "receivable" lc, "receivable_raw"),
    (fun lc => pyIn "wo_status" lc || (pyIn "status" lc && pyIn "billed" lc), "wo_status"),
    (fun lc => pyIn "collection_status" lc || (pyIn "collection" lc && pyIn "status" lc), "collection_status"),
    (fun lc => pyIn "billing_status" lc, "billing_status"),
    (fun lc => pyIn "personnel" lc || pyIn "kam" lc || pyIn "bd" lc, "personnel_code"),
    (fun lc => pyIn "po" lc || pyIn "loi" lc, "po_date"),
    (fun lc => pyIn "invoice_date" lc || (pyIn "invoice" lc && pyIn "date" lc), "last_invoice_date") ]

/-- clean_workorders column renaming. -/
def renameWO (col : String) : String := applyRules (lcKey col) col woRenameRules

-- ── Cleaners ───────────────────────────────────────────────────────────

def dealRequiredCols : List String :=
  ["deal_name", "status", "stage_raw", "sector_raw", "deal_value_raw",
   "closure_probability", "owner_code"]

def woRequiredCols : List String :=
  ["deal_name", "execution_status", "sector_raw",
   "amount_excl_gst_raw", "amount_incl_gst_raw",
   "billed_incl_gst_raw", "collected_raw", "receivable_raw",
   "billing_status", "wo_status"]

/-- The deals frame right before sentinel-row filtering (lines 130-169). -/
def dealsPreMask (rows : List RawRow) : DF :=
  (((DF.ofRecords rows).rename renameDeal).dedupLast).ensure dealRequiredCols

/-- The sentinel-row mask of lines 172-176 (`true` = drop the row). -/
def dealSentinelMask (df : DF) : Except String (List Bool) := do
  let st ← df.strCol "status"
  let sg ← df.strCol "stage_raw"
  let se ← df.strCol "sector_raw"
  let m1 := strLowerIsin st SENTINEL_DEAL_STATUS
  let m2 := strLowerIsin sg SENTINEL_DEAL_STAGE
  let m3 := strLowerIsin se SENTINEL_SECTOR
  .ok (List.zipWith or (List.zipWith or m1 m2) m3)

/-- The clean + normalise + classify block of clean_deals (lines
179-193), applied to the already-filtered frame. -/
def cleanDealsBodyE (df1 : DF) : Except String DF := do
  let st ← df1.strCol "status"
  let df2 := df1.setCol "status" (st.map strStripTitle)
  let df3 := df2.setCol "deal_value" ((df2.colD "deal_value_raw").cells.map parse_number)
  let df4 := df3.setCol "stage" ((df3.colD "stage_raw").cells.map normalise_stage)
  let df5 := df4.setCol "stage_group" ((df4.colD "stage").cells.map (fun c => .s (stage_group c)))
  let df6 := df5.setCol "sector" ((df5.colD "sector_raw").cells.map normalise_sector)
  let cp ← df6.strCol "closure_probability"
  let df7 := df6.setCol "closure_probability" (cp.map strStripTitle)
  let so ← df7.strCol "status"
  let df8 := df7.setCol "is_open" (so.map (cellLowerIsin ACTIVE_DEAL_STATUSES))
  let sw ← df8.strCol "status"
  let df9 := df8.setCol "is_won" (sw.map (cellLowerIsin WON_DEAL_STATUSES))
  let sd ← df9.strCol "status"
  let df10 := df9.setCol "is_dead" (sd.map (cellLowerIsin DEAD_DEAL_STATUSES))
  let sh ← df10.strCol "status"
  .ok (df10.setCol "is_on_hold" (sh.map (cellLowerIsin ON_HOLD_STATUSES)))

/-- The success path of `cleanDealsBodyE`: every `.str` access, when it
does not raise, returns exactly the cells of its column. -/
def cleanDealsBody (df1 : DF) : DF :=
  let df2 := df1.setCol "status" ((df1.colD "status").cells.map strStripTitle)
  let df3 := df2.setCol "deal_value" ((df2.colD "deal_value_raw").cells.map parse_number)
  let df4 := df3.setCol "stage" ((df3.colD "stage_raw").cells.map normalise_stage)
  let df5 := df4.setCol "stage_group" ((df4.colD "stage").cells.map (fun c => .s (stage_group c)))
  let df6 := df5.setCol "sector" ((df5.colD "sector_raw").cells.map normalise_sector)
  let df7 := df6.setCol "closure_probability" ((df6.colD "closure_probability").cells.map strStripTitle)
  let df8 := df7.setCol "is_open" ((df7.colD "status").cells.map (cellLowerIsin ACTIVE_DEAL_STATUSES))
  let df9 := df8.setCol "is_won" ((df8.colD "status").cells.map (cellLowerIsin WON_DEAL_STATUSES))
  let df10 := df9.setCol "is_dead" ((df9.colD "status").cells.map (cellLowerIsin DEAD_DEAL_STATUSES))
  df10.setCol "is_on_hold" ((df10.colD "status").cells.map (cellLowerIsin ON_HOLD_STATUSES))

/-- data_cleaner.clean_deals (exceptions modelled as `Except.error`). -/
def clean_deals (rows : List RawRow) : Except String DF := do
  let df0 := dealsPreMask rows
  let mask ← dealSentinelMask df0
  cleanDealsBodyE (df0.filterRows (mask.map not))

/-- The work-orders frame after renaming and column synthesis. -/
def woPre (rows : List RawRow) : DF :=
  (((DF.ofRecords rows).rename renameWO).dedupLast).ensure woRequiredCols

def woFinancialCols : List String :=
  ["amount_excl_gst", "amount_incl_gst", "billed_incl_gst", "collected", "receivable"]

/-- The parse + normalise + classify + fillna block of clean_workorders
(lines 259-279), applied to the renamed frame. -/
def cleanWOBodyE (df0 : DF) : Except String DF := do
  let df1 := df0.setCol "amount_excl_gst" ((df0.colD "amount_excl_gst_raw").cells.map parse_number)
  let df2 := df1.setCol "amount_incl_gst" ((df1.colD "amount_incl_gst_raw").cells.map parse_number)
  let df3 := df2.setCol "billed_incl_gst" ((df2.colD "billed_incl_gst_raw").cells.map parse_number)
  let df4 := df3.setCol "collected" ((df3.colD "collected_raw").cells.map parse_number)
  let df5 := df4.setCol "receivable" ((df4.colD "receivable_raw").cells.map parse_number)
  let df6 := df5.setCol "sector" ((df5.colD "sector_raw").cells.map normalise_sector)
  let es ← df6.strCol "execution_status"
  let df7 := df6.setCol "execution_status" (es.map strStrip)
  let ec ← df7.strCol "execution_status"
  let df8 := df7.setCol "is_completed" (ec.map (cellLowerIsin COMPLETED_WO_STATUSES))
  let eo ← df8.strCol "execution_status"
  let df9 := df8.setCol "is_ongoing" (eo.map (cellLowerIsin ONGOING_WO_STATUSES))
  .ok (woFinancialCols.foldl (fun d n => d.setCol n ((d.colD n).cells.map fillnaZero)) df9)

/-- The success path of `cleanWOBodyE`. -/
def cleanWOBody (df0 : DF) : DF :=
  let df1 := df0.setCol "amount_excl_gst" ((df0.colD "amount_excl_gst_raw").cells.map parse_number)
  let df2 := df1.setCol "amount_incl_gst" ((df1.colD "amount_incl_gst_raw").cells.map parse_number)
  let df3 := df2.setCol "billed_incl_gst" ((df2.colD "billed_incl_gst_raw").cells.map parse_number)
  let df4 := df3.setCol "collected" ((df3.colD "collected_raw").cells.map parse_number)
  let df5 := df4.setCol "receivable" ((df4.colD "receivable_raw").cells.map parse_number)
  let df6 := df5.setCol "sector" ((df5.colD "sector_raw").cells.map normalise_sector)
  let df7 := df6.setCol "execution_status" ((df6.colD "execution_status").cells.map strStrip)
  let df8 := df7.setCol "is_completed" ((df7.colD "execution_status").cells.map (cellLowerIsin COMPLETED_WO_STATUSES))
  let df9 := df8.setCol "is_ongoing" ((df8.colD "execution_status").cells.map (cellLowerIsin ONGOING_WO_STATUSES))
  woFinancialCols.foldl (fun d n => d.setCol n ((d.colD n).cells.map fillnaZero)) df9

/-- data_cleaner.clean_workorders (exceptions modelled as `Except.error`). -/
def clean_workorders (rows : List RawRow) : Except String DF :=
  cleanWOBodyE (woPre rows)

-- ── Data-quality report ────────────────────────────────────────────────

/-- Round to the nearest integer, ties to even. -/
def roundHalfEvenInt (q : ℚ) : ℤ :=
  let f := ⌊q⌋
  let r := q - f
  if r < 1/2 then f
  else if 1/2 < r then f + 1
  else if f % 2 = 0 then f else f + 1

/-- Python round(x, 1), idealised to exact rationals. -/
def round1 (q : ℚ) : ℚ := (roundHalfEvenInt (q * 10) : ℚ) / 10

/-- df.notna().sum().sum(): the filled-cell count. -/
def notnaCount (df : DF) : ℕ :=
  (df.cols.map (fun c => (c.cells.filter (fun x => !isNA x)).length)).sum

/-- The `_completeness` inner helper of quality_report. -/
def completeness (df : DF) : ℚ :=
  let total := df.nrows * df.cols.length
  if total = 0 then 100
  else round1 ((notnaCount df : ℚ) / (total : ℚ) * 100)

/-- df.empty (true when either axis has length 0). -/
def DF.isEmptyDF (df : DF) : Bool := df.nrows == 0 || df.cols.isEmpty

/-- series.isna().sum() for a named column. -/
def naCount (df : DF) (n : String) : ℕ := ((df.colD n).cells.filter isNA).length

/-- Cells elementwise-equal to the scalar 0 (Python numeric equality:
False == 0 is also true since bool is an int subtype). -/
def cellEqZero : PyVal → Bool
  | .num q => q == 0
  | .b v => !v
  | _ => false

/-- (series == 0).sum() for a named column. -/
def zeroCount (df : DF) (n : String) : ℕ := ((df.colD n).cells.filter cellEqZero).length

structure QReport where
  deals_rows : ℕ
  wo_rows : ℕ
  deals_completeness : ℚ
  wo_completeness : ℚ
  issues : List String

/-- data_cleaner.quality_report.  The completeness fields carry the
numeric value inside the formatted percent strings. -/
def quality_report (deals_df wo_df : DF) : QReport :=
  let dealIssues :=
    if !deals_df.isEmptyDF then
      (if deals_df.hasCol "deal_value" then
        (let m := naCount deals_df "deal_value"
         if m ≠ 0 then [toString m ++ " deals have no deal value"] else [])
       else []) ++
      (if deals_df.hasCol "sector" then
        (let m := naCount deals_df "sector"
         if m ≠ 0 then [toString m ++ " deals have no sector"] else [])
       else []) ++
      (if deals_df.hasCol "stage" then
        (let m := naCount deals_df "stage"
         if m ≠ 0 then [toString m ++ " deals have no stage"] else [])
       else [])
    else []
  let woIssues :=
    if !wo_df.isEmptyDF then
      (if wo_df.hasCol "amount_excl_gst" then
        (let m := zeroCount wo_df "amount_excl_gst"
         if m ≠ 0 then [toString m ++ " work orders have ₹0 / missing amount"] else [])
       else []) ++
      (if wo_df.hasCol "collected" then
        (let m := zeroCount wo_df "collected"
         if m ≠ 0 then [toString m ++ " work orders show ₹0 collected"] else [])
       else [])
    else []
  ⟨deals_df.nrows, wo_df.nrows, completeness deals_df, completeness wo_df,
   dealIssues ++ woIssues⟩

-- ── Agent (backend/agent.py) ───────────────────────────────────────────

/-- A tool-call request from the model.  `args?` is the parse of the
JSON-encoded `function.arguments`; `none` models a JSONDecodeError,
which agent.py degrades to an empty argument dict. -/
structure ToolCall where
  id : String
  name : String
  args? : Option (List (String × PyVal))

/-- One assistant turn of the chat-completions call. -/
structure GroqMsg where
  content : Option String
  tool_calls : List ToolCall
  finish : String

/-- The Monday.com client as an oracle: board id to columns payload, or
to raw item rows; `Except.error` models a raised exception. -/
structure MondayOracle where
  get_columns : String → Except String PyVal
  get_all_items : String → Except String (List RawRow)

/-- The `board_map[args["board"]]` resolution: the board name, or the
KeyError raised for a missing, unknown or non-string board key (the
exception text only approximates the Python rendering). -/
def boardName (args : List (String × PyVal)) : Except String String :=
  match args.lookup "board" with
  | some (.s b) =>
    if b == "deals" || b == "workorders" then .ok b
    else .error ("KeyError: " ++ b)
  | some _ => .error "KeyError: non-string board key"
  | none => .error "KeyError: board"

/-- df.where(df.notna(), None).to_dict(orient="records"). -/
def DF.toRecordsNone (df : DF) : List RawRow :=
  (List.range df.nrows).map (fun i =>
    df.cols.map (fun c =>
      (c.name, let x := c.cells.getD i .nan; if isNA x then .pynone else x)))

def itemsNote : String := "Output truncated to 30 rows due to API token limits"

/-- agent._run_tool.  The dispatch-boundary try/except lives in the
caller; exceptions escape as `Except.error`. -/
def _run_tool (name : String) (args : List (String × PyVal)) (monday : MondayOracle)
    (deals_board_id wo_board_id : String) : Except String PyVal :=
  if name == "get_board_columns" then do
    let b ← boardName args
    monday.get_columns (if b == "deals" then deals_board_id else wo_board_id)
  else if name == "get_board_items" then do
    let b ← boardName args
    let raw ← monday.get_all_items (if b == "deals" then deals_board_id else wo_board_id)
    let df ← if b == "deals" then clean_deals raw else clean_workorders raw
    let recs := df.toRecordsNone
    let truncated := recs.take 30
    .ok (.dict
      [("board", .s b),
       ("total_rows", .num (recs.length : ℚ)),
       ("returned_rows", .num (truncated.length : ℚ)),
       ("note", .s itemsNote),
       ("rows", .list (truncated.map PyVal.dict))])
  else .ok (.dict [("error", .s ("Unknown tool: " ++ name))])

/-- One trace entry from agent._event.  The wall-clock timestamp is not
modelled. -/
structure TraceEvent where
  kind : String
  source : String
  content : PyVal

/-- One entry of the running message list. -/
inductive ChatMsg where
  | plain (role content : String)
  | assistant (content : String) (tool_calls : List ToolCall)
  | tool (tool_call_id : String) (content : PyVal)

/-- The mutable state of one query invocation of the agent loop. -/
structure LoopState where
  messages : List ChatMsg
  trace : List TraceEvent
  fetched_deals : Option DF
  fetched_wo : Option DF

def hasKey (k : String) : PyVal → Bool
  | .dict fs => (fs.map Prod.fst).contains k
  | _ => false

/-- dict.get with default on a dynamic value. -/
def pyGet (v : PyVal) (k : String) (dflt : PyVal) : PyVal :=
  match v with
  | .dict fs => (fs.lookup k).getD dflt
  | _ => dflt

/-- Python len() (raises TypeError on unsized values). -/
def pyLen : PyVal → Except String ℕ
  | .list xs => .ok xs.length
  | .dict fs => .ok fs.length
  | .s v => .ok v.length
  | _ => .error "TypeError: object has no len()"

/-- result["rows"] viewed as records (it is always a list of dicts). -/
def pyRecords : PyVal → List RawRow
  | .list xs => xs.map (fun x => match x with | .dict fs => fs | _ => [])
  | _ => []

/-- The pre-execution tool_call trace entry (agent.py lines 247-252). -/
def toolCallEvent (tc : ToolCall) (args : List (String × PyVal)) : TraceEvent :=
  ⟨"tool_call", "Agent→Monday.com",
   .dict [("tool", .s tc.name),
          ("board", (args.lookup "board").getD (.s "—")),
          ("reason", (args.lookup "reason").getD (.s "")),
          ("input", .dict args)]⟩

/-- The body of the dispatch try-block after `_run_tool` succeeded
(agent.py lines 262-296): DataFrame capture for the quality report plus
the shaped tool_result trace entry.  Exceptions raised here (for
example by the re-run of the cleaner on the payload rows) escape as
`Except.error` into the same except-handler. -/
def okBranch (fn_name : String) (args : List (String × PyVal)) (result : PyVal)
    (st : LoopState) : Except String (LoopState × PyVal) :=
  if fn_name == "get_board_items" && hasKey "rows" result then do
    let rows := pyRecords (pyGet result "rows" .pynone)
    let board := args.lookup "board"
    let st ←
      match board with
      | some (.s bs) =>
        if bs == "deals" then do
          let fd ← if rows.isEmpty then .ok emptyDF else clean_deals rows
          .ok { st with fetched_deals := some fd }
        else if bs == "workorders" then do
          let fw ← if rows.isEmpty then .ok emptyDF else clean_workorders rows
          .ok { st with fetched_wo := some fw }
        else .ok st
      | _ => .ok st
    let ev : TraceEvent :=
      ⟨"tool_result", "Monday.com→Agent",
       .dict [("tool", .s fn_name),
              ("board", (args.lookup "board").getD .pynone),
              ("rows_fetched", pyGet result "total_rows" .pynone),
              ("columns", .list ((rows.headD []).map (fun p => PyVal.s p.1))),
              ("sample", .list ((rows.take 2).map PyVal.dict))]⟩
    .ok ({ st with trace := st.trace ++ [ev] }, result)
  else if fn_name == "get_board_columns" && hasKey "columns" result then do
    let ncols ← pyLen (pyGet result "columns" .pynone)
    let ev : TraceEvent :=
      ⟨"tool_result", "Monday.com→Agent",
       .dict [("tool", .s fn_name),
              ("board", (args.lookup "board").getD .pynone),
              ("board_name", pyGet result "board_name" .pynone),
              ("columns_found", .num (ncols : ℚ)),
              ("columns", pyGet result "columns" .pynone)]⟩
    .ok ({ st with trace := st.trace ++ [ev] }, result)
  else
    let ev : TraceEvent :=
      ⟨"tool_result", "Monday.com→Agent",
       .dict [("tool", .s fn_name), ("result", result)]⟩
    .ok ({ st with trace := st.trace ++ [ev] }, result)

/-- The tool_error trace entry of the except-handler. -/
def toolErrorEvent (nm e : String) : TraceEvent :=
  ⟨"tool_error", "Error", .dict [("tool", .s nm), ("error", .s e)]⟩

/-- Handling of one requested tool call inside a round (agent.py lines
240-311): tool_call trace entry, dispatch through `_run_tool`, the
try-block shaping, the except-handler, and the tool-role message fed
back to the model. -/
def processOneCall (monday : MondayOracle) (dealsId woId : String)
    (st : LoopState) (tc : ToolCall) : LoopState :=
  let args := tc.args?.getD []
  let st1 := { st with trace := st.trace ++ [toolCallEvent tc args] }
  match (do
    let r ← _run_tool tc.name args monday dealsId woId
    okBranch tc.name args r st1 : Except String (LoopState × PyVal)) with
  | .ok (st2, result_str) =>
    { st2 with messages := st2.messages ++ [.tool tc.id result_str] }
  | .error e =>
    { st1 with
      messages := st1.messages ++ [.tool tc.id (.dict [("error", .s e)])],
      trace := st1.trace ++ [toolErrorEvent tc.name e] }

/-- The fixed analyst system prompt.  Its text is never branched on by
the control flow, so it is abbreviated here. -/
def SYSTEM_PROMPT : String :=
  "You are a senior BI analyst for Skylark Drones. [fixed persona and operating rules]"

def noResponseAnswer : String := "⚠️ No response generated."

def loopLimitAnswer : String :=
  "⚠️ Agent loop limit reached. Please try a more specific question."

structure QueryResult where
  answer : String
  trace : List TraceEvent
  quality : Option QReport

/-- The no-tool-calls final-answer branch (agent.py lines 209-220). -/
def finalizeAnswer (m : GroqMsg) (st : LoopState) : QueryResult :=
  let answer :=
    match m.content with
    | some c => if c == "" then noResponseAnswer else c
    | none => noResponseAnswer
  let trace := st.trace ++ [⟨"answer", "Groq→Agent", .dict [("text", .s answer)]⟩]
  let quality :=
    if st.fetched_deals.isSome || st.fetched_wo.isSome then
      some (quality_report (st.fetched_deals.getD emptyDF) (st.fetched_wo.getD emptyDF))
    else none
  ⟨answer, trace, quality⟩

/-- The while-loop of BIAgent.query, with the remaining iteration budget
as fuel (MAX_LOOPS = 8) and the 0-based round index feeding the model
oracle. -/
def queryLoop (model : ℕ → GroqMsg) (monday : MondayOracle) (dealsId woId : String) :
    ℕ → ℕ → LoopState → QueryResult
  | 0, _, st => ⟨loopLimitAnswer, st.trace, none⟩
  | fuel + 1, round, st =>
    let m := model round
    if m.finish == "stop" || m.tool_calls.isEmpty then finalizeAnswer m st
    else
      let st1 := { st with messages := st.messages ++ [.assistant (m.content.getD "") m.tool_calls] }
      let st2 := m.tool_calls.foldl (processOneCall monday dealsId woId) st1
      queryLoop model monday dealsId woId fuel (round + 1) st2

/-- BIAgent.query, with the Groq model (one assistant turn per round)
and the Monday client as oracles. -/
def query (model : ℕ → GroqMsg) (monday : MondayOracle) (dealsId woId : String)
    (user_message : String) (history : List (String × String)) : QueryResult :=
  let msgs :=
    [ChatMsg.plain "system" SYSTEM_PROMPT] ++
    history.map (fun h => ChatMsg.plain h.1 h.2) ++
    [ChatMsg.plain "user" user_message]
  queryLoop model monday dealsId woId 8 0 ⟨msgs, [], none, none⟩

-- ── Spec-shaped reference definitions ──────────────────────────────────

/-- The ordered five-bucket keyword table, as the spec states it. -/
def stageBucketTable : List (List String × String) :=
  [ (["lead generated", "sales qualified"], "Early Stage"),
    (["demo", "feasibility"], "Qualification"),
    (["proposal", "negotiat", "poc"], "Active Pursuit"),
    (["work order", "project won", "invoice", "amount accrued"], "Won/Execution"),
    (["lost", "not relevant", "on hold"], "Closed/Inactive") ]

/-- First-match scan of an ordered keyword-bucket table, default Other. -/
def scanBuckets (s : String) : List (List String × String) → String
  | [] => "Other"
  | (keys, label) :: rest => if containsAny s keys then label else scanBuckets s rest

/-- Stage grouping as the spec phrases it: Unknown on absent stage, else
a first-match scan of the five ordered buckets, Other when nothing hits. -/
def specStageGroup (stage : PyVal) : String :=
  if pyFalsy stage then "Unknown"
  else scanBuckets (pyLower (pyStr stage)) stageBucketTable

/-- The cell of a named column at a row index (NaN out of range). -/
def cellAt (df : DF) (n : String) (i : ℕ) : PyVal := (df.colD n).cells.getD i .nan

/-- Whether row `i` of a deals frame is a sentinel header-repeat row:
its status, stage or sector field case-insensitively equals the
corresponding header label. -/
def dealSentinelAt (df : DF) (i : ℕ) : Bool :=
  lowerIsin SENTINEL_DEAL_STATUS (cellAt df "status" i) ||
  lowerIsin SENTINEL_DEAL_STAGE (cellAt df "stage_raw" i) ||
  lowerIsin SENTINEL_SECTOR (cellAt df "sector_raw" i)

/-- Total extraction of a DataFrame from a cleaner result. -/
def okDF (e : Except String DF) : DF :=
  match e with
  | .ok d => d
  | .error _ => emptyDF

-- ── Concrete inputs used by witnesses and counterexamples ──────────────

/-- The three-row end-to-end scenario: a sentinel row, a valid row with
stage "a. Lead Generated" and value ₹50,00,000, and a row with a null
sector. -/
def c3rows : List RawRow :=
  [ [("Deal Status", .s "Deal Status")],
    [("Deal name", .s "Acme"), ("Deal Status", .s "Open"),
     ("Deal Stage", .s "a. Lead Generated"), ("Masked Deal Value", .s "₹50,00,000"),
     ("Sector/Service", .s "Mining"), ("Closure Probability", .s "high")],
    [("Deal name", .s "Beta"), ("Deal Status", .s "Won"),
     ("Deal Stage", .s "b. Sales Qualified Lead"), ("Masked Deal Value", .s "₹1"),
     ("Sector/Service", .pynone), ("Closure Probability", .s "low")] ]

/-- The last column carrying a given label, in left-to-right order. -/
def lastCol (cols : List Col) (n : String) : Option Col :=
  cols.reverse.find? (fun c => c.name == n)

/-- Well-formedness of a frame: every column has one cell per row. -/
def WF (df : DF) : Prop := ∀ c ∈ df.cols, c.cells.length = df.nrows

/-- Cells that keep a column `.str`-safe: strings, None, NaN. -/
def goodCell : PyVal → Bool
  | .s _ => true
  | .pynone => true
  | .nan => true
  | _ => false

/-- A column on which every `.str` access succeeds: object dtype with
only string/None/NaN cells. -/
def GoodCol (c : Col) : Prop := c.numeric = false ∧ ∀ x ∈ c.cells, goodCell x = true

/-- A frame all of whose columns are `.str`-safe. -/
def GoodDF (df : DF) : Prop := ∀ c ∈ df.cols, GoodCol c

/-- Input values within the no-exception envelope: strings or None. -/
def strOrNull : PyVal → Bool
  | .s _ => true
  | .pynone => true
  | _ => false

/-- Rows whose values are all strings or None. -/
def GoodRows (rows : List RawRow) : Prop :=
  ∀ r ∈ rows, ∀ p ∈ r, strOrNull p.2 = true

/-- Completeness as the spec phrases it: filled cells over rows times
columns, as a percentage rounded to 1 decimal, 100 for an empty frame. -/
def specCompleteness (df : DF) : ℚ :=
  if df.nrows * df.cols.length = 0 then 100
  else round1 ((notnaCount df : ℚ) / ((df.nrows * df.cols.length : ℕ) : ℚ) * 100)

/-- An issue line, present only when its count is greater than 0. -/
def issueLine (count : ℕ) (line : String) : List String :=
  if 0 < count then [line] else []

/-- The issue list in the fixed order the spec states — null deal_value,
null sector, null stage for deals, then zero amount_excl_gst and zero
collected for work orders — for frames carrying those columns. -/
def specIssueList (ddf wdf : DF) : List String :=
  (if ddf.nrows ≠ 0 then
     issueLine (naCount ddf "deal_value")
       (toString (naCount ddf "deal_value") ++ " deals have no deal value") ++
     issueLine (naCount ddf "sector")
       (toString (naCount ddf "sector") ++ " deals have no sector") ++
     issueLine (naCount ddf "stage")
       (toString (naCount ddf "stage") ++ " deals have no stage")
   else []) ++
  (if wdf.nrows ≠ 0 then
     issueLine (zeroCount wdf "amount_excl_gst")
       (toString (zeroCount wdf "amount_excl_gst") ++ " work orders have ₹0 / missing amount") ++
     issueLine (zeroCount wdf "collected")
       (toString (zeroCount wdf "collected") ++ " work orders show ₹0 collected")
   else [])

/-- The sentinel mask a good (string/None valued) deals frame produces. -/
def dealMaskOf (rows : List RawRow) : List Bool :=
  List.zipWith or (List.zipWith or
    (strLowerIsin ((dealsPreMask rows).colD "status").cells SENTINEL_DEAL_STATUS)
    (strLowerIsin ((dealsPreMask rows).colD "stage_raw").cells SENTINEL_DEAL_STAGE))
    (strLowerIsin ((dealsPreMask rows).colD "sector_raw").cells SENTINEL_SECTOR)

/-- The frame clean_deals returns on its success path. -/
def cleanDealsOf (rows : List RawRow) : DF :=
  cleanDealsBody ((dealsPreMask rows).filterRows ((dealMaskOf rows).map not))

/-- The frame clean_workorders returns on its success path. -/
def cleanWOOf (rows : List RawRow) : DF := cleanWOBody (woPre rows)

/-- Whether a cell is a float value (finite or infinite). -/
def isFloatCell : PyVal → Bool
  | .num _ => true
  | .inf _ => true
  | _ => false

/-- Every canonical deal field, raw and derived. -/
def dealCanonicalCols : List String :=
  dealRequiredCols ++
    ["deal_value", "stage", "stage_group", "sector",
     "is_open", "is_won", "is_dead", "is_on_hold"]

/-- Every canonical work-order field, raw and derived. -/
def woCanonicalCols : List String :=
  woRequiredCols ++ woFinancialCols ++ ["sector", "is_completed", "is_ongoing"]


-- ── Concrete agent scenarios ───────────────────────────────────────────

/-- Total extraction of a payload from a tool result. -/
def okPayload (e : Except String PyVal) : PyVal :=
  match e with
  | .ok p => p
  | .error _ => .pynone

/-- A deals board holding 45 raw rows. -/
def board45 : List RawRow :=
  (List.range 45).map (fun i =>
    [("Deal name", PyVal.s ("r" ++ toString i)), ("Deal Status", PyVal.s "Open")])

/-- A deals board holding 2 raw rows. -/
def board2 : List RawRow :=
  [[("Deal name", PyVal.s "a"), ("Deal Status", PyVal.s "Open")],
   [("Deal name", PyVal.s "b"), ("Deal Status", PyVal.s "Won")]]

/-- A Monday client serving fixed raw deal rows on board id "D"; every
other call raises a network error. -/
def mondayWith (rows : List RawRow) : MondayOracle :=
  ⟨fun _ => .error "network", fun bid => if bid == "D" then .ok rows else .error "network"⟩

/-- A model that requests a tool call on every turn. -/
def constToolModel : ℕ → GroqMsg := fun _ =>
  ⟨some "", [⟨"c1", "get_board_columns", some [("board", PyVal.s "deals")]⟩], "tool_calls"⟩

/-- A model whose first turn requests a tool call that will fail and
whose second turn answers. -/
def twoRoundModel : ℕ → GroqMsg := fun i =>
  if i == 0 then
    ⟨some "", [⟨"c1", "get_board_columns", some [("board", PyVal.s "deals")]⟩], "tool_calls"⟩
  else ⟨some "done", [], "stop"⟩

/-- A model whose first turn fetches the deals board and whose second
turn answers. -/
def fetchThenStopModel : ℕ → GroqMsg := fun i =>
  if i == 0 then
    ⟨some "", [⟨"t1", "get_board_items", some [("board", PyVal.s "deals")]⟩], "tool_calls"⟩
  else ⟨some "done", [], "stop"⟩

/-- Both captured frames, when present, hold at most 30 rows. -/
def boundedFetch (st : LoopState) : Prop :=
  (∀ df, st.fetched_deals = some df → df.nrows ≤ 30) ∧
  (∀ df, st.fetched_wo = some df → df.nrows ≤ 30)

/-- The quality report of a query result, defaulting to the all-clean
report. -/
def qOf (r : QueryResult) : QReport := r.quality.getD ⟨0, 0, 100, 100, []⟩

-- ── Claim C4 ───────────────────────────────────────────────────────────

/-- Claim C4: parse_number strips the currency symbols ₹ $ € £, commas,
and whitespace from its input, then attempts a float parse, returning
null (never raising) on empty-after-strip input, parse failure, null
input, or not-a-number floating markers; in particular
parse_number("₹1,23,456.78") = 123456.78, parse_number("") = null, and
parse_number(None) = null. -/
theorem claim_C4 :
    (∀ v : String,
      parse_number (.s v) =
        (let t := pyStrip (stripCurrency v)
         if t = "" then .pynone else (pyFloat? t).getD .pynone)) ∧
    parse_number (.s "₹1,23,456.78") = .num ((12345678 : ℚ) / 100) ∧
    parse_number (.s "") = .pynone ∧
    parse_number .pynone = .pynone ∧
    parse_number .nan = .pynone := by
  refine ⟨fun v => rfl, ?_, rfl, rfl, rfl⟩
  have h : parse_number (.s "₹1,23,456.78") = .num (mkRat 12345678 100) := rfl
  rw [h, Rat.mkRat_eq_div]
  norm_num

-- ── Claim C3 ───────────────────────────────────────────────────────────

/-- Claim C3 counterexample: the empty stage string has no letter-dot
prefix, yet normalise_stage maps it to null (Python falsiness fires
first) instead of passing it through unchanged as the claim states. -/
theorem claim_C3_cex :
    normalise_stage (.s "") = .pynone ∧ normalise_stage (.s "") ≠ .s "" := by
  refine ⟨rfl, fun h => ?_⟩
  rw [show normalise_stage (.s "") = .pynone from rfl] at h
  exact PyVal.noConfusion h

/-- Claim C3 (amended): for every nonempty stage string, normalisation
looks up the lowercased letter-dot prefix in the 15-entry vocabulary,
returning the canonical label on a hit and the raw string unchanged on
an unmatched or missing prefix (the empty or absent stage gives null
instead); stage_group is the first-match scan of the five keyword
buckets in their fixed order with default Other and Unknown on an
absent stage; and the three-row end-to-end scenario yields 2 rows, a
first row with stage_group Early Stage and deal_value 5000000.0, and
the quality issue "1 deals have no sector". -/
theorem claim_C3 :
    (∀ v : String, v ≠ "" →
      normalise_stage (.s v) =
        (match letterDotCode v with
         | some code => .s ((DEAL_STAGE_MAP.lookup code).getD v)
         | none => .s v)) ∧
    (∀ stage : PyVal, stage_group stage = specStageGroup stage) ∧
    stage_group .pynone = "Unknown" ∧
    normalise_stage .pynone = .pynone ∧
    DEAL_STAGE_MAP.length = 15 ∧
    (clean_deals c3rows = .ok (okDF (clean_deals c3rows)) ∧
      (okDF (clean_deals c3rows)).nrows = 2 ∧
      ((okDF (clean_deals c3rows)).colD "stage_group").cells.headD .pynone = .s "Early Stage" ∧
      ((okDF (clean_deals c3rows)).colD "deal_value").cells.headD .pynone = .num 5000000 ∧
      "1 deals have no sector" ∈
        (quality_report (okDF (clean_deals c3rows)) (okDF (clean_workorders []))).issues) := by
  refine ⟨?_, fun stage => rfl, rfl, rfl, rfl, ?_, ?_, ?_, ?_, ?_⟩
  · intro v hv
    have hf : pyFalsy (.s v) = false := by simp [pyFalsy, hv]
    unfold normalise_stage
    rw [hf]
    show (match letterDotCode (pyStr (.s v)) with
          | some code =>
            match DEAL_STAGE_MAP.lookup code with
            | some label => PyVal.s label
            | none => PyVal.s v
          | none => PyVal.s v) = _
    cases hc : letterDotCode v with
    | none => simp [pyStr, hc]
    | some code =>
      cases hl : DEAL_STAGE_MAP.lookup code with
      | none => simp [pyStr, hc, hl]
      | some label => simp [pyStr, hc, hl]
  · rfl
  · rfl
  · rfl
  · rfl
  · decide

/-- Witness for claim C3 at the concrete stage "a. Lead Generated". -/
theorem claim_C3_wit :
    normalise_stage (.s "a. Lead Generated") =
      (match letterDotCode "a. Lead Generated" with
       | some code => .s ((DEAL_STAGE_MAP.lookup code).getD "a. Lead Generated")
       | none => .s "a. Lead Generated") :=
  claim_C3.1 "a. Lead Generated" (by decide)

-- ── Claim C9 ───────────────────────────────────────────────────────────

/-- Bridge between Bool `List.contains` and membership. -/
theorem contains_iff {l : List String} {a : String} : l.contains a = true ↔ a ∈ l := by
  show l.elem a = true ↔ a ∈ l
  exact List.elem_iff

/-- Unfolding of the duplicate-column drop when the head label recurs. -/
theorem dedup_cons_pos {c : Col} {cs : List Col}
    (h : (colNames cs).contains c.name = true) :
    dedupKeepLast (c :: cs) = dedupKeepLast cs := by
  show (if (colNames cs).contains c.name = true then dedupKeepLast cs
        else c :: dedupKeepLast cs) = _
  rw [if_pos h]

/-- Unfolding of the duplicate-column drop when the head label is new. -/
theorem dedup_cons_neg {c : Col} {cs : List Col}
    (h : ¬ (colNames cs).contains c.name = true) :
    dedupKeepLast (c :: cs) = c :: dedupKeepLast cs := by
  show (if (colNames cs).contains c.name = true then dedupKeepLast cs
        else c :: dedupKeepLast cs) = _
  rw [if_neg h]

/-- A first-match rule scan yields the fallback or one of the canonical
names of the table. -/
theorem applyRules_cases (lc dflt : String) (rules : List RenameRule) :
    applyRules lc dflt rules = dflt ∨ applyRules lc dflt rules ∈ rules.map Prod.snd := by
  induction rules with
  | nil => exact Or.inl rfl
  | cons r rest ih =>
    show (if r.1 lc then r.2 else applyRules lc dflt rest) = dflt ∨
      (if r.1 lc then r.2 else applyRules lc dflt rest) ∈ r.2 :: rest.map Prod.snd
    by_cases h : r.1 lc
    · rw [if_pos h]
      exact Or.inr (List.mem_cons_self _ _)
    · rw [if_neg h]
      rcases ih with h1 | h1
      · exact Or.inl h1
      · exact Or.inr (List.mem_cons_of_mem _ h1)

/-- Every rename result is the input or one of the canonical deal names. -/
theorem renameDeal_cases (c : String) :
    renameDeal c = c ∨
      renameDeal c ∈ ["deal_name", "owner_code", "client_code", "status",
        "close_date_actual", "closure_probability", "deal_value_raw",
        "tentative_close_date", "stage_raw", "product", "sector_raw",
        "created_date"] :=
  applyRules_cases (lcKey c) c dealRenameRules

/-- Every rename result is the input or one of the canonical work-order
names. -/
theorem renameWO_cases (c : String) :
    renameWO c = c ∨
      renameWO c ∈ ["deal_name", "customer_code", "serial_no", "nature_of_work",
        "execution_status", "sector_raw", "type_of_work", "amount_excl_gst_raw",
        "amount_incl_gst_raw", "billed_excl_gst_raw", "billed_incl_gst_raw",
        "collected_raw", "receivable_raw", "wo_status", "collection_status",
        "billing_status", "personnel_code", "po_date", "last_invoice_date"] :=
  applyRules_cases (lcKey c) c woRenameRules

/-- Duplicate-column elimination preserves the label set. -/
theorem mem_colNames_dedup {cols : List Col} {n : String} :
    n ∈ colNames (dedupKeepLast cols) ↔ n ∈ colNames cols := by
  induction cols with
  | nil => simp [dedupKeepLast]
  | cons c cs ih =>
    by_cases h : (colNames cs).contains c.name
    · have hd : dedupKeepLast (c :: cs) = dedupKeepLast cs := dedup_cons_pos h
      have hm : c.name ∈ colNames cs := contains_iff.mp h
      rw [hd, ih]
      show n ∈ colNames cs ↔ n ∈ c.name :: colNames cs
      constructor
      · exact fun hn => List.mem_cons_of_mem _ hn
      · intro hn
        rcases List.mem_cons.mp hn with heq | hn
        · exact heq ▸ hm
        · exact hn
    · have hd : dedupKeepLast (c :: cs) = c :: dedupKeepLast cs := dedup_cons_neg h
      rw [hd]
      show n ∈ c.name :: colNames (dedupKeepLast cs) ↔ n ∈ c.name :: colNames cs
      simp [List.mem_cons, ih]

/-- Duplicate-column elimination leaves no repeated label. -/
theorem nodup_colNames_dedup (cols : List Col) : (colNames (dedupKeepLast cols)).Nodup := by
  induction cols with
  | nil => simp [dedupKeepLast, colNames]
  | cons c cs ih =>
    by_cases h : (colNames cs).contains c.name
    · rw [dedup_cons_pos h]
      exact ih
    · rw [dedup_cons_neg h]
      show (c.name :: colNames (dedupKeepLast cs)).Nodup
      refine List.nodup_cons.mpr ⟨?_, ih⟩
      intro hmem
      exact absurd (contains_iff.mpr (mem_colNames_dedup.mp hmem)) (by simpa using h)

/-- A label absent from a list of columns is found nowhere in it. -/
theorem find?_eq_none_of_not_mem {cols : List Col} {n : String}
    (h : n ∉ colNames cols) : cols.find? (fun c => c.name == n) = none := by
  rw [List.find?_eq_none]
  intro x hx hpx
  exact h (by
    have hxn : x.name = n := by simpa using hpx
    exact hxn ▸ List.mem_map_of_mem Col.name hx)

/-- After duplicate-column elimination, looking a label up finds exactly
the last-seen column of that label. -/
theorem dedup_find?_eq_lastCol (cols : List Col) (n : String) :
    (dedupKeepLast cols).find? (fun c => c.name == n) = lastCol cols n := by
  induction cols with
  | nil => rfl
  | cons c cs ih =>
    unfold lastCol
    rw [show (c :: cs).reverse = cs.reverse ++ [c] from by simp, List.find?_append]
    by_cases h : (colNames cs).contains c.name
    · rw [dedup_cons_pos h, ih]
      unfold lastCol
      by_cases hn : c.name = n
      · have hm : n ∈ colNames cs := hn ▸ contains_iff.mp h
        have hs : (cs.reverse.find? (fun c => c.name == n)).isSome = true := by
          rw [List.find?_isSome]
          rcases List.mem_map.mp hm with ⟨x, hx, hxn⟩
          exact ⟨x, List.mem_reverse.mpr hx, by simp [hxn]⟩
        rcases Option.isSome_iff_exists.mp hs with ⟨v, hv⟩
        rw [hv]
        rfl
      · have h1 : List.find? (fun c => c.name == n) [c] = none := by
          simp [List.find?, show (c.name == n) = false from by simp [hn]]
        rw [h1, Option.or_none]
    · rw [dedup_cons_neg h]
      by_cases hn : c.name = n
      · have hnone : cs.reverse.find? (fun c => c.name == n) = none := by
          apply find?_eq_none_of_not_mem
          rw [show colNames cs.reverse = (colNames cs).reverse from List.map_reverse _ _]
          rw [List.mem_reverse]
          exact fun hm => absurd (contains_iff.mpr hm) (by simpa [hn] using h)
        rw [hnone, Option.none_or]
        simp [List.find?, show (c.name == n) = true from by simp [hn]]
      · have hc : (fun c => c.name == n) c = false := by simp [hn]
        rw [show List.find? (fun c => c.name == n) (c :: dedupKeepLast cs) =
              List.find? (fun c => c.name == n) (dedupKeepLast cs) from by
            simp [List.find?, hc], ih]
        have h1 : List.find? (fun c => c.name == n) [c] = none := by
          simp [List.find?, show (c.name == n) = false from by simp [hn]]
        rw [h1, Option.or_none]
        rfl

/-- Claim C9: column renaming is idempotent (re-applying the renaming to
an already-renamed column set changes nothing), and when several raw
columns normalise to the same canonical name the duplicate-column drop
keeps exactly one — the last-seen one in column order — while the set of
labels kept is independent of column order. -/
theorem claim_C9 :
    (∀ c : String, renameDeal (renameDeal c) = renameDeal c) ∧
    (∀ c : String, renameWO (renameWO c) = renameWO c) ∧
    (∀ cols : List Col, (colNames (dedupKeepLast cols)).Nodup) ∧
    (∀ cols : List Col, ∀ n : String,
      (dedupKeepLast cols).find? (fun c => c.name == n) = lastCol cols n) ∧
    (∀ cols cols' : List Col, cols.Perm cols' → ∀ n : String,
      (n ∈ colNames (dedupKeepLast cols) ↔ n ∈ colNames (dedupKeepLast cols'))) := by
  refine ⟨?_, ?_, nodup_colNames_dedup, dedup_find?_eq_lastCol, ?_⟩
  · intro c
    rcases renameDeal_cases c with h | h
    · rw [h]
      exact h
    · simp only [List.mem_cons, List.not_mem_nil, or_false] at h
      rcases h with h | h | h | h | h | h | h | h | h | h | h | h <;> rw [h] <;> decide
  · intro c
    rcases renameWO_cases c with h | h
    · rw [h]
      exact h
    · simp only [List.mem_cons, List.not_mem_nil, or_false] at h
      rcases h with h | h | h | h | h | h | h | h | h | h | h | h | h | h | h | h | h | h | h <;>
        rw [h] <;> decide
  · intro cols cols' hperm n
    rw [mem_colNames_dedup, mem_colNames_dedup]
    exact (hperm.map Col.name).mem_iff

/-- Witness for claim C9 on a concrete two-column frame with a repeated
label. -/
theorem claim_C9_wit :
    ("status" ∈ colNames (dedupKeepLast [⟨"status", false, [.num 1]⟩, ⟨"status", false, [.num 2]⟩]) ↔
      "status" ∈ colNames (dedupKeepLast [⟨"status", false, [.num 1]⟩, ⟨"status", false, [.num 2]⟩])) :=
  claim_C9.2.2.2.2 _ _ (List.Perm.refl _) "status"

-- ── DataFrame infrastructure lemmas ────────────────────────────────────

theorem lookup_mem {l : List (String × PyVal)} {k : String} {v : PyVal}
    (h : l.lookup k = some v) : (k, v) ∈ l := by
  induction l with
  | nil => simp [List.lookup] at h
  | cons p ps ih =>
    rw [List.lookup] at h
    cases hk : (k == p.1) with
    | true =>
      rw [hk] at h
      have hkp : k = p.1 := by simpa using hk
      have hv : p.2 = v := by simpa using h
      rw [hkp, ← hv]
      exact List.mem_cons_self _ _
    | false =>
      rw [hk] at h
      exact List.mem_cons_of_mem _ (ih h)

theorem lookup_isSome_of_mem {l : List (String × PyVal)} {k : String} {v : PyVal}
    (h : (k, v) ∈ l) : (l.lookup k).isSome = true := by
  induction l with
  | nil => simp at h
  | cons p ps ih =>
    rw [List.lookup]
    cases hk : (k == p.1) with
    | true => rfl
    | false =>
      rcases List.mem_cons.mp h with heq | hm
      · have : k = p.1 := congrArg Prod.fst heq
        exact absurd (by simp [this] : (k == p.1) = true) (by simp [hk])
      · exact ih hm

theorem mem_collect_inner {r : RawRow} {acc : List String} {n : String}
    (h : n ∈ r.foldl (fun a p => if a.contains p.1 then a else a ++ [p.1]) acc) :
    n ∈ acc ∨ ∃ v, (n, v) ∈ r := by
  induction r generalizing acc with
  | nil => exact Or.inl h
  | cons p ps ih =>
    rw [List.foldl_cons] at h
    rcases ih h with hin | ⟨v, hv⟩
    · by_cases hc : acc.contains p.1
      · rw [if_pos hc] at hin
        exact Or.inl hin
      · rw [if_neg hc] at hin
        rcases List.mem_append.mp hin with hin | hin
        · exact Or.inl hin
        · rcases List.mem_singleton.mp hin with rfl
          exact Or.inr ⟨p.2, List.mem_cons_self _ _⟩
    · exact Or.inr ⟨v, List.mem_cons_of_mem _ hv⟩

theorem mem_collectCols {rows : List RawRow} {n : String}
    (h : n ∈ collectCols rows) : ∃ r ∈ rows, ∃ v, (n, v) ∈ r := by
  unfold collectCols at h
  suffices haux : ∀ (acc : List String), n ∈ rows.foldl
      (fun acc r => r.foldl (fun a p => if a.contains p.1 then a else a ++ [p.1]) acc) acc →
      n ∈ acc ∨ ∃ r ∈ rows, ∃ v, (n, v) ∈ r by
    rcases haux [] h with hin | hr
    · simp at hin
    · exact hr
  clear h
  induction rows with
  | nil => exact fun acc h => Or.inl h
  | cons r rs ih =>
    intro acc h
    rw [List.foldl_cons] at h
    rcases ih _ h with hin | hr
    · rcases mem_collect_inner hin with hin | ⟨v, hv⟩
      · exact Or.inl hin
      · exact Or.inr ⟨r, List.mem_cons_self _ _, v, hv⟩
    · rcases hr with ⟨r0, hr0, v, hv⟩
      exact Or.inr ⟨r0, List.mem_cons_of_mem _ hr0, v, hv⟩

theorem WF_ofRecords (rows : List RawRow) : WF (DF.ofRecords rows) := by
  intro c hc
  simp only [DF.ofRecords, List.mem_map] at hc
  rcases hc with ⟨n, _, rfl⟩
  simp [DF.ofRecords]

theorem WF_rename {df : DF} (h : WF df) (f : String → String) : WF (df.rename f) := by
  intro c hc
  simp only [DF.rename, List.mem_map] at hc
  rcases hc with ⟨c0, hc0, rfl⟩
  exact h c0 hc0

theorem dedup_sublist (cols : List Col) : ∀ c ∈ dedupKeepLast cols, c ∈ cols := by
  induction cols with
  | nil => simp [dedupKeepLast]
  | cons c cs ih =>
    by_cases h : (colNames cs).contains c.name = true
    · rw [dedup_cons_pos h]
      exact fun x hx => List.mem_cons_of_mem _ (ih x hx)
    · rw [dedup_cons_neg h]
      intro x hx
      rcases List.mem_cons.mp hx with rfl | hx
      · exact List.mem_cons_self _ _
      · exact List.mem_cons_of_mem _ (ih x hx)

theorem WF_dedup {df : DF} (h : WF df) : WF df.dedupLast :=
  fun c hc => h c (dedup_sublist _ c hc)

theorem ensure_cons (df : DF) (m : String) (ms : List String) :
    df.ensure (m :: ms) =
      (if df.hasCol m = true then df
       else ⟨df.nrows, df.cols ++ [⟨m, false, List.replicate df.nrows .pynone⟩]⟩).ensure ms := by
  unfold DF.ensure
  rw [List.foldl_cons]

theorem WF_ensure {df : DF} (h : WF df) (names : List String) : WF (df.ensure names) := by
  induction names generalizing df with
  | nil => exact h
  | cons n ns ih =>
    rw [ensure_cons]
    by_cases hc : df.hasCol n = true
    · rw [if_pos hc]
      exact ih h
    · rw [if_neg hc]
      apply ih
      intro c hmem
      rcases List.mem_append.mp hmem with hm | hm
      · exact h c hm
      · rcases List.mem_singleton.mp hm with rfl
        simp

theorem applyMask_length {keep : List Bool} {cells : List PyVal}
    (h : cells.length = keep.length) :
    (applyMask keep cells).length = keep.count true := by
  induction keep generalizing cells with
  | nil => simp [applyMask]
  | cons b bs ih =>
    cases cells with
    | nil => simp at h
    | cons x xs =>
      have hx : xs.length = bs.length := by simpa using h
      have hih := ih hx
      cases b <;>
        simp [applyMask, List.zip_cons_cons, List.filter_cons, List.count_cons] at hih ⊢ <;>
        omega

theorem WF_filterRows {df : DF} (h : WF df) {keep : List Bool}
    (hk : keep.length = df.nrows) : WF (df.filterRows keep) := by
  intro c hc
  simp only [DF.filterRows, List.mem_map] at hc
  rcases hc with ⟨c0, hc0, rfl⟩
  show (applyMask keep c0.cells).length = keep.count true
  exact applyMask_length (by rw [h c0 hc0, hk])

theorem mem_setColIn {cols : List Col} {name : String} {cells : List PyVal} {c : Col}
    (h : c ∈ setColIn name cells cols) : c ∈ cols ∨ c = ⟨name, false, cells⟩ := by
  induction cols with
  | nil =>
    rcases List.mem_singleton.mp h with rfl
    exact Or.inr rfl
  | cons c0 cs ih =>
    rw [setColIn] at h
    by_cases hn : c0.name == name
    · rw [if_pos hn] at h
      rcases List.mem_cons.mp h with rfl | hm
      · exact Or.inr rfl
      · exact Or.inl (List.mem_cons_of_mem _ hm)
    · rw [if_neg hn] at h
      rcases List.mem_cons.mp h with rfl | hm
      · exact Or.inl (List.mem_cons_self _ _)
      · rcases ih hm with hm | hm
        · exact Or.inl (List.mem_cons_of_mem _ hm)
        · exact Or.inr hm

theorem WF_setCol {df : DF} (h : WF df) {name : String} {cells : List PyVal}
    (hlen : cells.length = df.nrows) : WF (df.setCol name cells) := by
  intro c hc
  rcases mem_setColIn hc with hm | rfl
  · exact h c hm
  · exact hlen

theorem colD_length {df : DF} (h : WF df) (n : String) :
    (df.colD n).cells.length = df.nrows := by
  unfold DF.colD DF.col?
  cases hf : df.cols.find? (fun c => c.name == n) with
  | none => simp
  | some c => exact h c (List.mem_of_find?_eq_some hf)

theorem colD_mem_or_default (df : DF) (n : String) :
    df.colD n ∈ df.cols ∨ df.colD n = ⟨n, false, List.replicate df.nrows .nan⟩ := by
  unfold DF.colD DF.col?
  cases hf : df.cols.find? (fun c => c.name == n) with
  | none => exact Or.inr rfl
  | some c => exact Or.inl (List.mem_of_find?_eq_some hf)

theorem find?_setColIn_ne {cols : List Col} {m n : String} (h : ¬ m = n)
    (cells : List PyVal) :
    (setColIn m cells cols).find? (fun c => c.name == n) =
      cols.find? (fun c => c.name == n) := by
  induction cols with
  | nil => simp [setColIn, List.find?, show (m == n) = false from by simp [h]]
  | cons c0 cs ih =>
    rw [setColIn]
    by_cases hc : (c0.name == m) = true
    · rw [if_pos hc]
      have hc0 : c0.name = m := by simpa using hc
      have hn0 : (c0.name == n) = false := by simp [hc0, h]
      have hm0 : ((⟨m, false, cells⟩ : Col).name == n) = false := by simp [h]
      simp only [List.find?, hn0, hm0]
    · rw [if_neg hc]
      simp only [List.find?]
      cases hv : (c0.name == n) with
      | true => simp only [hv]
      | false => simp only [hv]; exact ih

theorem colD_setCol_ne (df : DF) {m n : String} (h : ¬ m = n) (cells : List PyVal) :
    (df.setCol m cells).colD n = df.colD n := by
  unfold DF.colD DF.col? DF.setCol
  rw [show (⟨df.nrows, setColIn m cells df.cols⟩ : DF).cols = setColIn m cells df.cols from rfl]
  rw [find?_setColIn_ne h]

theorem colD_setCol_self (df : DF) (n : String) (cells : List PyVal) :
    (df.setCol n cells).colD n = ⟨n, false, cells⟩ := by
  unfold DF.colD DF.col? DF.setCol
  rw [show (⟨df.nrows, setColIn n cells df.cols⟩ : DF).cols = setColIn n cells df.cols from rfl]
  have hfind : (setColIn n cells df.cols).find? (fun c => c.name == n) = some ⟨n, false, cells⟩ := by
    induction df.cols with
    | nil => simp [setColIn, List.find?]
    | cons c0 cs ih =>
      rw [setColIn]
      by_cases hc : (c0.name == n) = true
      · rw [if_pos hc]
        simp [List.find?]
      · rw [if_neg hc]
        simp only [List.find?, show (c0.name == n) = false from by simpa using hc]
        exact ih
  rw [hfind]
  rfl

theorem nrows_setCol (df : DF) (n : String) (cells : List PyVal) :
    (df.setCol n cells).nrows = df.nrows := rfl

theorem colNames_map_pres (cols : List Col) (g : Col → Col)
    (hg : ∀ c, (g c).name = c.name) : colNames (cols.map g) = colNames cols := by
  unfold colNames
  rw [List.map_map]
  exact List.map_congr_left fun c _ => hg c

theorem mem_colNames_setColIn {cols : List Col} {m n : String} {cells : List PyVal} :
    n ∈ colNames (setColIn m cells cols) ↔ n ∈ colNames cols ∨ n = m := by
  induction cols with
  | nil => simp [setColIn, colNames, eq_comm]
  | cons c0 cs ih =>
    rw [setColIn]
    by_cases hc : c0.name == m
    · rw [if_pos hc]
      have hc0 : c0.name = m := by simpa using hc
      show n ∈ m :: colNames cs ↔ n ∈ c0.name :: colNames cs ∨ n = m
      simp [hc0, List.mem_cons]
      tauto
    · rw [if_neg hc]
      show n ∈ c0.name :: colNames (setColIn m cells cs) ↔ n ∈ c0.name :: colNames cs ∨ n = m
      simp [List.mem_cons, ih]
      tauto

theorem hasCol_setCol (df : DF) (m : String) (cells : List PyVal) (n : String) :
    (df.setCol m cells).hasCol n = (df.hasCol n || n == m) := by
  apply Bool.eq_iff_iff.mpr
  show (colNames (setColIn m cells df.cols)).contains n = true ↔ _
  rw [contains_iff, Bool.or_eq_true]
  constructor
  · intro h
    rcases mem_colNames_setColIn.mp h with hm | rfl
    · exact Or.inl (contains_iff.mpr hm)
    · exact Or.inr (by simp)
  · intro h
    apply mem_colNames_setColIn.mpr
    rcases h with h | h
    · exact Or.inl (contains_iff.mp h)
    · exact Or.inr (by simpa using h)

theorem hasCol_filterRows (df : DF) (keep : List Bool) (n : String) :
    (df.filterRows keep).hasCol n = df.hasCol n := by
  unfold DF.hasCol DF.filterRows
  show (colNames (df.cols.map fun c => ⟨c.name, c.numeric, applyMask keep c.cells⟩)).contains n = _
  rw [colNames_map_pres df.cols
    (fun c => ⟨c.name, c.numeric, applyMask keep c.cells⟩) (fun c => rfl)]

theorem hasCol_ensure_mono {df : DF} {names : List String} {n : String}
    (h : df.hasCol n = true) : (df.ensure names).hasCol n = true := by
  induction names generalizing df with
  | nil => exact h
  | cons m ms ih =>
    rw [ensure_cons]
    by_cases hc : df.hasCol m = true
    · rw [if_pos hc]
      exact ih h
    · rw [if_neg hc]
      apply ih
      show (colNames (df.cols ++ [⟨m, false, List.replicate df.nrows .pynone⟩])).contains n = true
      apply contains_iff.mpr
      unfold colNames
      rw [List.map_append]
      exact List.mem_append.mpr (Or.inl (contains_iff.mp h))

theorem hasCol_ensure_self {df : DF} {names : List String} {n : String}
    (h : n ∈ names) : (df.ensure names).hasCol n = true := by
  induction names generalizing df with
  | nil => simp at h
  | cons m ms ih =>
    rw [ensure_cons]
    rcases List.mem_cons.mp h with rfl | hm
    · apply hasCol_ensure_mono
      by_cases hc : df.hasCol n = true
      · rw [if_pos hc]
        exact hc
      · rw [if_neg hc]
        show (colNames (df.cols ++ [⟨n, false, List.replicate df.nrows .pynone⟩])).contains n = true
        apply contains_iff.mpr
        unfold colNames
        rw [List.map_append]
        exact List.mem_append.mpr (Or.inr (by simp))
    · exact ih hm

theorem col?_of_hasCol {df : DF} {n : String} (h : df.hasCol n = true) :
    ∃ c, df.col? n = some c ∧ c.name = n := by
  have hm := contains_iff.mp h
  rcases List.mem_map.mp hm with ⟨c, hc, hcn⟩
  have hs : (df.cols.find? (fun c => c.name == n)).isSome = true := by
    rw [List.find?_isSome]
    exact ⟨c, hc, by simp [hcn]⟩
  rcases Option.isSome_iff_exists.mp hs with ⟨c0, hc0⟩
  refine ⟨c0, hc0, ?_⟩
  have := List.find?_some hc0
  simpa using this

theorem colD_filterRows {df : DF} {n : String} {c : Col} (h : df.col? n = some c)
    (keep : List Bool) :
    (df.filterRows keep).colD n = ⟨c.name, c.numeric, applyMask keep c.cells⟩ := by
  unfold DF.colD DF.col? DF.filterRows
  have heq : ((fun c : Col => c.name == n) ∘
      (fun c : Col => (⟨c.name, c.numeric, applyMask keep c.cells⟩ : Col))) =
      (fun c : Col => c.name == n) := funext fun c => rfl
  rw [show (⟨keep.count true, df.cols.map fun c =>
        (⟨c.name, c.numeric, applyMask keep c.cells⟩ : Col)⟩ : DF).cols =
      df.cols.map fun c => (⟨c.name, c.numeric, applyMask keep c.cells⟩ : Col) from rfl]
  rw [List.find?_map, heq]
  unfold DF.col? at h
  rw [h]
  rfl

-- ── Goodness: the no-exception envelope ────────────────────────────────

theorem strOK_of_good {c : Col} (h : GoodCol c) : strOK c = true := by
  obtain ⟨hn, hc⟩ := h
  unfold strOK
  rw [hn]
  simp only [Bool.not_false, Bool.true_and]
  by_cases hs : c.cells.any isStrCell = true
  · simp [hs]
  · have hall : c.cells.all isNA = true := by
      rw [List.all_eq_true]
      intro x hx
      have hg := hc x hx
      have hnx : isStrCell x = false := by
        cases h1 : isStrCell x with
        | false => rfl
        | true => exact absurd (List.any_eq_true.mpr ⟨x, hx, h1⟩) hs
      cases x <;> simp_all [goodCell, isNA, isStrCell]
    simp [hall]

theorem strCol_ok {df : DF} {n : String} (h : GoodCol (df.colD n)) :
    df.strCol n = .ok (df.colD n).cells := by
  unfold DF.strCol
  rw [if_pos (strOK_of_good h)]

theorem goodCol_colD {df : DF} (h : GoodDF df) (n : String) : GoodCol (df.colD n) := by
  rcases colD_mem_or_default df n with hm | he
  · exact h _ hm
  · rw [he]
    refine ⟨rfl, fun x hx => ?_⟩
    rcases List.eq_of_mem_replicate hx with rfl
    rfl

theorem goodDF_ofRecords {rows : List RawRow} (h : GoodRows rows) :
    GoodDF (DF.ofRecords rows) := by
  intro c hc
  simp only [DF.ofRecords, List.mem_map] at hc
  rcases hc with ⟨n, hn, rfl⟩
  constructor
  · show colNumeric (rows.map fun r => (r.lookup n).getD .nan) = false
    rcases mem_collectCols hn with ⟨r, hr, v, hv⟩
    have hsome := lookup_isSome_of_mem hv
    rcases Option.isSome_iff_exists.mp hsome with ⟨v0, hv0⟩
    have hv0m : (n, v0) ∈ r := lookup_mem hv0
    have hgood : strOrNull v0 = true := h r hr (n, v0) hv0m
    have hcell : (r.lookup n).getD .nan = v0 := by rw [hv0]; rfl
    have hmem : v0 ∈ rows.map fun r => (r.lookup n).getD .nan := by
      rw [← hcell]
      exact List.mem_map_of_mem _ hr
    have hnum : numericish v0 = false := by
      cases v0 <;> simp_all [strOrNull, numericish]
    unfold colNumeric
    have hall : (rows.map fun r => (r.lookup n).getD .nan).all numericish = false := by
      cases h1 : (rows.map fun r => (r.lookup n).getD .nan).all numericish with
      | false => rfl
      | true => exact absurd (List.all_eq_true.mp h1 v0 hmem) (by simp [hnum])
    rw [hall]
    simp
  · intro x hx
    simp only [List.mem_map] at hx
    rcases hx with ⟨r, hr, rfl⟩
    cases hv : r.lookup n with
    | none => rfl
    | some v =>
      have : strOrNull v = true := h r hr (n, v) (lookup_mem hv)
      show goodCell ((some v).getD .nan) = true
      cases v <;> simp_all [strOrNull, goodCell]

theorem goodDF_rename {df : DF} (h : GoodDF df) (f : String → String) :
    GoodDF (df.rename f) := by
  intro c hc
  simp only [DF.rename, List.mem_map] at hc
  rcases hc with ⟨c0, hc0, rfl⟩
  exact ⟨(h c0 hc0).1, (h c0 hc0).2⟩

theorem goodDF_dedup {df : DF} (h : GoodDF df) : GoodDF df.dedupLast :=
  fun c hc => h c (dedup_sublist _ c hc)

theorem goodDF_ensure {df : DF} (h : GoodDF df) (names : List String) :
    GoodDF (df.ensure names) := by
  induction names generalizing df with
  | nil => exact h
  | cons n ns ih =>
    rw [ensure_cons]
    by_cases hc : df.hasCol n = true
    · rw [if_pos hc]
      exact ih h
    · rw [if_neg hc]
      apply ih
      intro c hmem
      rcases List.mem_append.mp hmem with hm | hm
      · exact h c hm
      · rcases List.mem_singleton.mp hm with rfl
        refine ⟨rfl, fun x hx => ?_⟩
        rcases List.eq_of_mem_replicate hx with rfl
        rfl

theorem mem_applyMask {keep : List Bool} {cells : List PyVal} {x : PyVal}
    (h : x ∈ applyMask keep cells) : x ∈ cells := by
  unfold applyMask at h
  rcases List.mem_map.mp h with ⟨p, hp, rfl⟩
  exact (List.of_mem_zip (List.mem_of_mem_filter hp)).2

theorem goodDF_filterRows {df : DF} (h : GoodDF df) (keep : List Bool) :
    GoodDF (df.filterRows keep) := by
  intro c hc
  simp only [DF.filterRows, List.mem_map] at hc
  rcases hc with ⟨c0, hc0, rfl⟩
  exact ⟨(h c0 hc0).1, fun x hx => (h c0 hc0).2 x (mem_applyMask hx)⟩

-- ── Cleaner inversion and success lemmas ───────────────────────────────

theorem ebind_ok {α β : Type} (a : α) (f : α → Except String β) :
    (do let x ← (Except.ok a : Except String α); f x) = f a := rfl

theorem bind_ok_inv {α β : Type} {x : Except String α} {f : α → Except String β} {b : β}
    (h : (do let v ← x; f v) = .ok b) : ∃ a, x = .ok a ∧ f a = .ok b := by
  cases x with
  | error e => exact Except.noConfusion (show (Except.error e : Except String β) = .ok b from h)
  | ok a => exact ⟨a, rfl, h⟩

theorem strCol_ok_inv {df : DF} {n : String} {cs : List PyVal}
    (h : df.strCol n = .ok cs) : cs = (df.colD n).cells ∧ strOK (df.colD n) = true := by
  unfold DF.strCol at h
  by_cases hok : strOK (df.colD n) = true
  · rw [if_pos hok] at h
    cases h
    exact ⟨rfl, hok⟩
  · rw [if_neg hok] at h
    exact Except.noConfusion h

theorem dealSentinelMask_ok_inv {df : DF} {mask : List Bool}
    (h : dealSentinelMask df = .ok mask) :
    mask = List.zipWith or (List.zipWith or
      (strLowerIsin (df.colD "status").cells SENTINEL_DEAL_STATUS)
      (strLowerIsin (df.colD "stage_raw").cells SENTINEL_DEAL_STAGE))
      (strLowerIsin (df.colD "sector_raw").cells SENTINEL_SECTOR) := by
  unfold dealSentinelMask at h
  obtain ⟨st, h1, h⟩ := bind_ok_inv h
  obtain ⟨hst, -⟩ := strCol_ok_inv h1
  subst hst
  obtain ⟨sg, h2, h⟩ := bind_ok_inv h
  obtain ⟨hsg, -⟩ := strCol_ok_inv h2
  subst hsg
  obtain ⟨se, h3, h⟩ := bind_ok_inv h
  obtain ⟨hse, -⟩ := strCol_ok_inv h3
  subst hse
  cases h
  rfl

theorem cleanDealsBodyE_ok_inv {df1 out : DF} (h : cleanDealsBodyE df1 = .ok out) :
    out = cleanDealsBody df1 := by
  unfold cleanDealsBodyE at h
  obtain ⟨st, h1, h⟩ := bind_ok_inv h
  obtain ⟨hst, -⟩ := strCol_ok_inv h1
  subst hst
  obtain ⟨cp, h2, h⟩ := bind_ok_inv h
  obtain ⟨hcp, -⟩ := strCol_ok_inv h2
  subst hcp
  obtain ⟨so, h3, h⟩ := bind_ok_inv h
  obtain ⟨hso, -⟩ := strCol_ok_inv h3
  subst hso
  obtain ⟨sw, h4, h⟩ := bind_ok_inv h
  obtain ⟨hsw, -⟩ := strCol_ok_inv h4
  subst hsw
  obtain ⟨sd, h5, h⟩ := bind_ok_inv h
  obtain ⟨hsd, -⟩ := strCol_ok_inv h5
  subst hsd
  obtain ⟨sh, h6, h⟩ := bind_ok_inv h
  obtain ⟨hsh, -⟩ := strCol_ok_inv h6
  subst hsh
  cases h
  rfl

theorem clean_deals_ok_inv {rows : List RawRow} {ddf : DF}
    (h : clean_deals rows = .ok ddf) :
    ∃ mask, dealSentinelMask (dealsPreMask rows) = .ok mask ∧
      ddf = cleanDealsBody ((dealsPreMask rows).filterRows (mask.map not)) := by
  unfold clean_deals at h
  obtain ⟨mask, hm, h⟩ := bind_ok_inv h
  exact ⟨mask, hm, cleanDealsBodyE_ok_inv h⟩

theorem cleanWOBodyE_ok_inv {df0 out : DF} (h : cleanWOBodyE df0 = .ok out) :
    out = cleanWOBody df0 := by
  unfold cleanWOBodyE at h
  obtain ⟨es, h1, h⟩ := bind_ok_inv h
  obtain ⟨hes, -⟩ := strCol_ok_inv h1
  subst hes
  obtain ⟨ec, h2, h⟩ := bind_ok_inv h
  obtain ⟨hec, -⟩ := strCol_ok_inv h2
  subst hec
  obtain ⟨eo, h3, h⟩ := bind_ok_inv h
  obtain ⟨heo, -⟩ := strCol_ok_inv h3
  subst heo
  cases h
  rfl

theorem clean_workorders_ok_inv {rows : List RawRow} {wdf : DF}
    (h : clean_workorders rows = .ok wdf) : wdf = cleanWOBody (woPre rows) :=
  cleanWOBodyE_ok_inv h

-- ── Frame shape lemmas for the cleaners ────────────────────────────────

theorem nrows_ensure (df : DF) (names : List String) : (df.ensure names).nrows = df.nrows := by
  induction names generalizing df with
  | nil => rfl
  | cons m ms ih =>
    rw [ensure_cons]
    by_cases hc : df.hasCol m = true
    · rw [if_pos hc, ih]
    · rw [if_neg hc, ih]

theorem nrows_preMask (rows : List RawRow) : (dealsPreMask rows).nrows = rows.length := by
  unfold dealsPreMask
  rw [nrows_ensure]
  rfl

theorem WF_preMask (rows : List RawRow) : WF (dealsPreMask rows) :=
  WF_ensure (WF_dedup (WF_rename (WF_ofRecords rows) _)) _

theorem nrows_woPre (rows : List RawRow) : (woPre rows).nrows = rows.length := by
  unfold woPre
  rw [nrows_ensure]
  rfl

theorem WF_woPre (rows : List RawRow) : WF (woPre rows) :=
  WF_ensure (WF_dedup (WF_rename (WF_ofRecords rows) _)) _

theorem strLowerIsin_length (cells : List PyVal) (S : List String) :
    (strLowerIsin cells S).length = cells.length := by
  unfold strLowerIsin
  rw [List.length_map]

theorem dealMask_length {rows : List RawRow} {mask : List Bool}
    (h : dealSentinelMask (dealsPreMask rows) = .ok mask) :
    mask.length = rows.length := by
  rw [dealSentinelMask_ok_inv h]
  have l1 := strLowerIsin_length ((dealsPreMask rows).colD "status").cells SENTINEL_DEAL_STATUS
  have l2 := strLowerIsin_length ((dealsPreMask rows).colD "stage_raw").cells SENTINEL_DEAL_STAGE
  have l3 := strLowerIsin_length ((dealsPreMask rows).colD "sector_raw").cells SENTINEL_SECTOR
  have hc1 := colD_length (WF_preMask rows) "status"
  have hc2 := colD_length (WF_preMask rows) "stage_raw"
  have hc3 := colD_length (WF_preMask rows) "sector_raw"
  rw [List.length_zipWith, List.length_zipWith, l1, l2, l3, hc1, hc2, hc3, nrows_preMask]
  simp

theorem count_notMap (l : List Bool) : (l.map not).count true = l.count false := by
  induction l with
  | nil => rfl
  | cons b bs ih => cases b <;> simp [List.count_cons, ih]

theorem count_true_add_count_false (l : List Bool) :
    l.count true + l.count false = l.length := by
  induction l with
  | nil => rfl
  | cons b bs ih => cases b <;> simp [List.count_cons, ih] <;> omega

theorem nrows_cleanDealsBody (df1 : DF) : (cleanDealsBody df1).nrows = df1.nrows := rfl

theorem nrows_foldl_fillna (names : List String) (df : DF) :
    (names.foldl (fun d n => d.setCol n ((d.colD n).cells.map fillnaZero)) df).nrows = df.nrows := by
  induction names generalizing df with
  | nil => rfl
  | cons m ms ih =>
    rw [List.foldl_cons, ih]
    rfl

theorem nrows_cleanWOBody (df0 : DF) : (cleanWOBody df0).nrows = df0.nrows := by
  unfold cleanWOBody
  rw [nrows_foldl_fillna]
  rfl

theorem colD_of_col? {df : DF} {n : String} {c : Col} (h : df.col? n = some c) :
    df.colD n = c := by
  unfold DF.colD
  rw [h]
  rfl

theorem body_colD_deal_name (df1 : DF) :
    (cleanDealsBody df1).colD "deal_name" = df1.colD "deal_name" := by
  unfold cleanDealsBody
  rw [colD_setCol_ne _ (show ¬ "is_on_hold" = "deal_name" from by decide) _,
      colD_setCol_ne _ (show ¬ "is_dead" = "deal_name" from by decide) _,
      colD_setCol_ne _ (show ¬ "is_won" = "deal_name" from by decide) _,
      colD_setCol_ne _ (show ¬ "is_open" = "deal_name" from by decide) _,
      colD_setCol_ne _ (show ¬ "closure_probability" = "deal_name" from by decide) _,
      colD_setCol_ne _ (show ¬ "sector" = "deal_name" from by decide) _,
      colD_setCol_ne _ (show ¬ "stage_group" = "deal_name" from by decide) _,
      colD_setCol_ne _ (show ¬ "stage" = "deal_name" from by decide) _,
      colD_setCol_ne _ (show ¬ "deal_value" = "deal_name" from by decide) _,
      colD_setCol_ne _ (show ¬ "status" = "deal_name" from by decide) _]

theorem getD_zipWith_or {a b : List Bool} {i : ℕ} (ha : i < a.length) (hb : i < b.length) :
    (List.zipWith or a b).getD i false = or (a.getD i false) (b.getD i false) := by
  have hz : i < (List.zipWith or a b).length := by
    rw [List.length_zipWith]
    omega
  rw [List.getD_eq_getElem _ _ hz, List.getElem_zipWith,
      List.getD_eq_getElem _ _ ha, List.getD_eq_getElem _ _ hb]

theorem getD_map_lower (S : List String) {cells : List PyVal} {i : ℕ}
    (h : i < cells.length) :
    (cells.map (lowerIsin S)).getD i false = lowerIsin S (cells.getD i .nan) := by
  have hm : i < (cells.map (lowerIsin S)).length := by
    rw [List.length_map]
    exact h
  rw [List.getD_eq_getElem _ _ hm, List.getElem_map, List.getD_eq_getElem _ _ h]

-- ── Claim C2 ───────────────────────────────────────────────────────────

/-- Claim C2: whenever clean_deals returns a collection, any raw row
whose status field case-insensitively equals a deal-status header label,
or whose stage or sector field equals the corresponding header label, is
dropped by the sentinel mask; the returned frame has exactly one row per
unmasked input row, and its untouched columns carry exactly the cells of
the unmasked rows. -/
theorem claim_C2 :
    ∀ (rows : List RawRow) (ddf : DF), clean_deals rows = .ok ddf →
      ∃ mask : List Bool,
        dealSentinelMask (dealsPreMask rows) = .ok mask ∧
        mask.length = rows.length ∧
        ddf.nrows = (mask.map not).count true ∧
        ddf.nrows + mask.count true = rows.length ∧
        (ddf.colD "deal_name").cells =
          applyMask (mask.map not) ((dealsPreMask rows).colD "deal_name").cells ∧
        (∀ i : ℕ, dealSentinelAt (dealsPreMask rows) i = true → mask.getD i false = true) := by
  intro rows ddf h
  obtain ⟨mask, hm, hbody⟩ := clean_deals_ok_inv h
  have hml : mask.length = rows.length := dealMask_length hm
  refine ⟨mask, hm, hml, ?_, ?_, ?_, ?_⟩
  · rw [hbody, nrows_cleanDealsBody]
    rfl
  · rw [hbody, nrows_cleanDealsBody]
    show (mask.map not).count true + mask.count true = rows.length
    rw [count_notMap, Nat.add_comm, count_true_add_count_false]
    exact hml
  · rw [hbody, body_colD_deal_name]
    have hhc : (dealsPreMask rows).hasCol "deal_name" = true :=
      hasCol_ensure_self (by decide)
    obtain ⟨c, hc, -⟩ := col?_of_hasCol hhc
    rw [colD_filterRows hc, colD_of_col? hc]
  · intro i hi
    have hpre := WF_preMask rows
    have hc1 : ((dealsPreMask rows).colD "status").cells.length = rows.length := by
      rw [colD_length hpre, nrows_preMask]
    have hc2 : ((dealsPreMask rows).colD "stage_raw").cells.length = rows.length := by
      rw [colD_length hpre, nrows_preMask]
    have hc3 : ((dealsPreMask rows).colD "sector_raw").cells.length = rows.length := by
      rw [colD_length hpre, nrows_preMask]
    -- the sentinel hit pins the index inside the frame
    have hlt : i < rows.length := by
      by_contra hge
      push_neg at hge
      have e1 : cellAt (dealsPreMask rows) "status" i = .nan := by
        unfold cellAt
        exact List.getD_eq_default _ _ (by rw [hc1]; exact hge)
      have e2 : cellAt (dealsPreMask rows) "stage_raw" i = .nan := by
        unfold cellAt
        exact List.getD_eq_default _ _ (by rw [hc2]; exact hge)
      have e3 : cellAt (dealsPreMask rows) "sector_raw" i = .nan := by
        unfold cellAt
        exact List.getD_eq_default _ _ (by rw [hc3]; exact hge)
      unfold dealSentinelAt at hi
      rw [e1, e2, e3] at hi
      exact Bool.noConfusion hi
    have hmaskeq := dealSentinelMask_ok_inv hm
    rw [hmaskeq]
    simp only [strLowerIsin]
    rw [getD_zipWith_or
          (by rw [List.length_zipWith, List.length_map, List.length_map, hc1, hc2]; omega)
          (by rw [List.length_map, hc3]; exact hlt),
        getD_zipWith_or
          (by rw [List.length_map, hc1]; exact hlt)
          (by rw [List.length_map, hc2]; exact hlt),
        getD_map_lower _ (by rw [hc1]; exact hlt),
        getD_map_lower _ (by rw [hc2]; exact hlt),
        getD_map_lower _ (by rw [hc3]; exact hlt)]
    unfold dealSentinelAt cellAt at hi
    exact hi

/-- Witness for claim C2 at the concrete three-row scenario (one
sentinel row). -/
theorem claim_C2_wit :
    ∃ mask : List Bool,
      dealSentinelMask (dealsPreMask c3rows) = .ok mask ∧
      mask.length = c3rows.length ∧
      (okDF (clean_deals c3rows)).nrows = (mask.map not).count true ∧
      (okDF (clean_deals c3rows)).nrows + mask.count true = c3rows.length ∧
      ((okDF (clean_deals c3rows)).colD "deal_name").cells =
        applyMask (mask.map not) ((dealsPreMask c3rows).colD "deal_name").cells ∧
      (∀ i : ℕ, dealSentinelAt (dealsPreMask c3rows) i = true → mask.getD i false = true) :=
  claim_C2 c3rows (okDF (clean_deals c3rows)) rfl

-- ── Claim C5 ───────────────────────────────────────────────────────────

theorem issueLine_eq (m : ℕ) (l : String) :
    issueLine m l = if m ≠ 0 then [l] else [] := by
  unfold issueLine
  by_cases hm : m = 0
  · subst hm
    simp
  · simp [hm, Nat.pos_of_ne_zero hm]

theorem cols_ne_nil_of_hasCol {df : DF} {n : String} (h : df.hasCol n = true) :
    df.cols ≠ [] := by
  intro hnil
  unfold DF.hasCol colNames at h
  rw [hnil] at h
  exact Bool.noConfusion h

theorem issues_eq {ddf wdf : DF}
    (hd1 : ddf.hasCol "deal_value" = true) (hd2 : ddf.hasCol "sector" = true)
    (hd3 : ddf.hasCol "stage" = true)
    (hw1 : wdf.hasCol "amount_excl_gst" = true) (hw2 : wdf.hasCol "collected" = true) :
    (quality_report ddf wdf).issues = specIssueList ddf wdf := by
  have hdne : ddf.cols ≠ [] := cols_ne_nil_of_hasCol hd1
  have hwne : wdf.cols ≠ [] := cols_ne_nil_of_hasCol hw1
  have hce : ddf.cols.isEmpty = false := by
    cases hcc : ddf.cols with
    | nil => exact absurd hcc hdne
    | cons a as => rfl
  have hcw : wdf.cols.isEmpty = false := by
    cases hcc : wdf.cols with
    | nil => exact absurd hcc hwne
    | cons a as => rfl
  unfold quality_report specIssueList
  dsimp only
  by_cases hz : ddf.nrows = 0 <;> by_cases hz' : wdf.nrows = 0 <;>
    simp [DF.isEmptyDF, hce, hcw, hd1, hd2, hd3, hw1, hw2, issueLine_eq, hz, hz']

theorem body_hasCols_deals (df1 : DF) :
    (cleanDealsBody df1).hasCol "deal_value" = true ∧
    (cleanDealsBody df1).hasCol "sector" = true ∧
    (cleanDealsBody df1).hasCol "stage" = true := by
  unfold cleanDealsBody
  refine ⟨?_, ?_, ?_⟩ <;> simp [hasCol_setCol]

theorem hasCol_foldl_fillna_mono {names : List String} {df : DF} {n : String}
    (h : df.hasCol n = true) :
    ((names.foldl (fun d n => d.setCol n ((d.colD n).cells.map fillnaZero)) df)).hasCol n = true := by
  induction names generalizing df with
  | nil => exact h
  | cons m ms ih =>
    rw [List.foldl_cons]
    apply ih
    simp [hasCol_setCol, h]

theorem body_hasCols_wo (df0 : DF) :
    (cleanWOBody df0).hasCol "amount_excl_gst" = true ∧
    (cleanWOBody df0).hasCol "collected" = true := by
  unfold cleanWOBody
  dsimp only
  constructor <;> (apply hasCol_foldl_fillna_mono; simp [hasCol_setCol])

/-- Claim C5: quality_report never throws; it reports row counts and,
per collection, completeness = non-null cells over rows × columns × 100
rounded to one decimal (100.0 for an empty collection), and builds the
issue list in the fixed order null deal_value, null sector, null stage
for deals, then zero amount_excl_gst and zero collected for work
orders, each line only when its count is positive; two empty
collections give 100 percent on both sides and no issues. -/
theorem claim_C5 :
    (∀ ddf wdf : DF,
      (quality_report ddf wdf).deals_rows = ddf.nrows ∧
      (quality_report ddf wdf).wo_rows = wdf.nrows ∧
      (quality_report ddf wdf).deals_completeness = specCompleteness ddf ∧
      (quality_report ddf wdf).wo_completeness = specCompleteness wdf) ∧
    (∀ (rows rows' : List RawRow) (ddf wdf : DF),
      clean_deals rows = .ok ddf → clean_workorders rows' = .ok wdf →
      (quality_report ddf wdf).issues = specIssueList ddf wdf) ∧
    quality_report emptyDF emptyDF = ⟨0, 0, 100, 100, []⟩ := by
  refine ⟨fun ddf wdf => ⟨rfl, rfl, rfl, rfl⟩, ?_, rfl⟩
  intro rows rows' ddf wdf hd hw
  obtain ⟨mask, -, hbd⟩ := clean_deals_ok_inv hd
  have hbw := clean_workorders_ok_inv hw
  subst hbd
  subst hbw
  obtain ⟨h1, h2, h3⟩ := body_hasCols_deals ((dealsPreMask rows).filterRows (mask.map not))
  obtain ⟨h4, h5⟩ := body_hasCols_wo (woPre rows')
  exact issues_eq h1 h2 h3 h4 h5

/-- Witness for claim C5 at the concrete three-row deals scenario and an
empty work-order import. -/
theorem claim_C5_wit :
    (quality_report (okDF (clean_deals c3rows)) (okDF (clean_workorders []))).issues =
      specIssueList (okDF (clean_deals c3rows)) (okDF (clean_workorders [])) :=
  claim_C5.2.1 c3rows [] _ _ rfl rfl

-- ── Claim C1: success path under string/None inputs ────────────────────

theorem goodCol_after_setCol_ne {df : DF} {m n : String} (hne : ¬ m = n)
    {cells : List PyVal} (h : GoodCol (df.colD n)) :
    GoodCol ((df.setCol m cells).colD n) := by
  rw [colD_setCol_ne _ hne _]
  exact h

theorem goodCol_set_self_of_cells {df : DF} {n : String} {cells : List PyVal}
    (h : ∀ x ∈ cells, goodCell x = true) : GoodCol ((df.setCol n cells).colD n) := by
  rw [colD_setCol_self]
  exact ⟨rfl, h⟩

theorem goodCell_strStripTitle (x : PyVal) : goodCell (strStripTitle x) = true := by
  cases x <;> rfl

theorem goodCell_strStrip (x : PyVal) : goodCell (strStrip x) = true := by
  cases x <;> rfl

theorem dealSentinelMask_ok_of_good {df : DF} (h : GoodDF df) :
    dealSentinelMask df = .ok (List.zipWith or (List.zipWith or
      (strLowerIsin (df.colD "status").cells SENTINEL_DEAL_STATUS)
      (strLowerIsin (df.colD "stage_raw").cells SENTINEL_DEAL_STAGE))
      (strLowerIsin (df.colD "sector_raw").cells SENTINEL_SECTOR)) := by
  unfold dealSentinelMask
  rw [strCol_ok (goodCol_colD h "status"), ebind_ok,
      strCol_ok (goodCol_colD h "stage_raw"), ebind_ok,
      strCol_ok (goodCol_colD h "sector_raw"), ebind_ok]

theorem cleanDealsBodyE_ok_of_good {df1 : DF} (h : GoodDF df1) :
    cleanDealsBodyE df1 = .ok (cleanDealsBody df1) := by
  have hmap : ∀ x ∈ (df1.colD "status").cells.map strStripTitle, goodCell x = true := by
    intro x hx
    rcases List.mem_map.mp hx with ⟨y, -, rfl⟩
    exact goodCell_strStripTitle y
  have g1 : GoodCol (df1.colD "status") := goodCol_colD h _
  have g6 : GoodCol (((((((df1.setCol "status" ((df1.colD "status").cells.map strStripTitle)).setCol
      "deal_value" (((df1.setCol "status" ((df1.colD "status").cells.map strStripTitle)).colD
        "deal_value_raw").cells.map parse_number)))))).colD "closure_probability") :=
    goodCol_after_setCol_ne (by decide)
      (goodCol_after_setCol_ne (by decide) (goodCol_colD h "closure_probability"))
  unfold cleanDealsBodyE cleanDealsBody
  rw [strCol_ok g1, ebind_ok]
  dsimp only
  rw [strCol_ok (goodCol_after_setCol_ne (by decide) (goodCol_after_setCol_ne (by decide)
        (goodCol_after_setCol_ne (by decide) (goodCol_after_setCol_ne (by decide)
          (goodCol_after_setCol_ne (by decide) (goodCol_colD h "closure_probability")))))),
      ebind_ok]
  rw [strCol_ok (goodCol_after_setCol_ne (by decide) (goodCol_after_setCol_ne (by decide)
        (goodCol_after_setCol_ne (by decide) (goodCol_after_setCol_ne (by decide)
          (goodCol_after_setCol_ne (by decide) (goodCol_set_self_of_cells hmap)))))),
      ebind_ok]
  rw [strCol_ok (goodCol_after_setCol_ne (by decide) (goodCol_after_setCol_ne (by decide)
        (goodCol_after_setCol_ne (by decide) (goodCol_after_setCol_ne (by decide)
          (goodCol_after_setCol_ne (by decide) (goodCol_after_setCol_ne (by decide)
            (goodCol_set_self_of_cells hmap))))))),
      ebind_ok]
  rw [strCol_ok (goodCol_after_setCol_ne (by decide) (goodCol_after_setCol_ne (by decide)
        (goodCol_after_setCol_ne (by decide) (goodCol_after_setCol_ne (by decide)
          (goodCol_after_setCol_ne (by decide) (goodCol_after_setCol_ne (by decide)
            (goodCol_after_setCol_ne (by decide) (goodCol_set_self_of_cells hmap)))))))),
      ebind_ok]
  rw [strCol_ok (goodCol_after_setCol_ne (by decide) (goodCol_after_setCol_ne (by decide)
        (goodCol_after_setCol_ne (by decide) (goodCol_after_setCol_ne (by decide)
          (goodCol_after_setCol_ne (by decide) (goodCol_after_setCol_ne (by decide)
            (goodCol_after_setCol_ne (by decide) (goodCol_after_setCol_ne (by decide)
              (goodCol_set_self_of_cells hmap))))))))),
      ebind_ok]

theorem cleanWOBodyE_ok_of_good {df0 : DF} (h : GoodDF df0) :
    cleanWOBodyE df0 = .ok (cleanWOBody df0) := by
  have hmap : ∀ x ∈ ((((((df0.setCol "amount_excl_gst" ((df0.colD "amount_excl_gst_raw").cells.map
      parse_number)))))).colD "execution_status").cells.map strStrip, goodCell x = true := by
    intro x hx
    rcases List.mem_map.mp hx with ⟨y, -, rfl⟩
    exact goodCell_strStrip y
  unfold cleanWOBodyE cleanWOBody
  dsimp only
  rw [strCol_ok (goodCol_after_setCol_ne (by decide) (goodCol_after_setCol_ne (by decide)
        (goodCol_after_setCol_ne (by decide) (goodCol_after_setCol_ne (by decide)
          (goodCol_after_setCol_ne (by decide) (goodCol_after_setCol_ne (by decide)
            (goodCol_colD h "execution_status"))))))),
      ebind_ok]
  rw [strCol_ok (goodCol_set_self_of_cells (by
        intro x hx
        rcases List.mem_map.mp hx with ⟨y, -, rfl⟩
        exact goodCell_strStrip y)),
      ebind_ok]
  rw [strCol_ok (goodCol_after_setCol_ne (by decide) (goodCol_set_self_of_cells (by
        intro x hx
        rcases List.mem_map.mp hx with ⟨y, -, rfl⟩
        exact goodCell_strStrip y))),
      ebind_ok]

theorem clean_deals_ok_of_good {rows : List RawRow} (h : GoodRows rows) :
    clean_deals rows = .ok (cleanDealsOf rows) := by
  have g0 : GoodDF (dealsPreMask rows) :=
    goodDF_ensure (goodDF_dedup (goodDF_rename (goodDF_ofRecords h) _)) _
  have g1 : GoodDF ((dealsPreMask rows).filterRows ((dealMaskOf rows).map not)) :=
    goodDF_filterRows g0 _
  unfold clean_deals
  dsimp only
  rw [show dealSentinelMask (dealsPreMask rows) = .ok (dealMaskOf rows) from
        dealSentinelMask_ok_of_good g0,
      ebind_ok]
  exact cleanDealsBodyE_ok_of_good g1

theorem clean_workorders_ok_of_good {rows : List RawRow} (h : GoodRows rows) :
    clean_workorders rows = .ok (cleanWOOf rows) := by
  have g0 : GoodDF (woPre rows) :=
    goodDF_ensure (goodDF_dedup (goodDF_rename (goodDF_ofRecords h) _)) _
  exact cleanWOBodyE_ok_of_good g0

-- ── Claim C1: financial cell shape ─────────────────────────────────────

theorem pyFloat?_shape (s : String) :
    pyFloat? s = none ∨ pyFloat? s = some .nan ∨
      (∃ b, pyFloat? s = some (.inf b)) ∨ (∃ q, pyFloat? s = some (.num q)) := by
  unfold pyFloat?
  dsimp only
  split_ifs
  · exact Or.inr (Or.inr (Or.inl ⟨_, rfl⟩))
  · exact Or.inr (Or.inl rfl)
  · cases hp : parseMantExp (splitSign s.toList).2 with
    | none => exact Or.inl rfl
    | some p => exact Or.inr (Or.inr (Or.inr ⟨_, rfl⟩))
  · cases hp : parseMantExp (splitSign s.toList).2 with
    | none => exact Or.inl rfl
    | some p => exact Or.inr (Or.inr (Or.inr ⟨_, rfl⟩))

theorem fillna_parse_notNA (c : PyVal) : isNA (fillnaZero (parse_number c)) = false := by
  unfold fillnaZero
  cases hx : isNA (parse_number c) with
  | true => rfl
  | false => exact hx

theorem fillna_parse_float (c : PyVal) : isFloatCell (fillnaZero (parse_number c)) = true := by
  unfold fillnaZero
  cases hx : isNA (parse_number c) with
  | true => rfl
  | false =>
    show isFloatCell (parse_number c) = true
    cases c with
    | num q => rfl
    | inf b => rfl
    | pynone => exact Bool.noConfusion hx
    | nan => exact Bool.noConfusion hx
    | b v => exact Bool.noConfusion hx
    | list xs => exact Bool.noConfusion hx
    | dict fs => exact Bool.noConfusion hx
    | s v =>
      unfold parse_number at hx ⊢
      dsimp only at hx ⊢
      by_cases ht : pyStrip (stripCurrency v) = ""
      · rw [if_pos ht] at hx
        exact Bool.noConfusion hx
      · rw [if_neg ht] at hx ⊢
        rcases pyFloat?_shape (pyStrip (stripCurrency v)) with hp | hp | ⟨b, hp⟩ | ⟨q, hp⟩ <;>
          rw [hp] at hx ⊢
        · exact Bool.noConfusion hx
        · exact Bool.noConfusion hx
        · rfl
        · rfl

-- ── Claim C1: column equations of the cleaned frames ───────────────────

theorem body_colD_deal_value (df1 : DF) :
    ((cleanDealsBody df1).colD "deal_value").cells =
      (df1.colD "deal_value_raw").cells.map parse_number := by
  unfold cleanDealsBody
  dsimp only
  rw [colD_setCol_ne _ (show ¬ "is_on_hold" = "deal_value" from by decide) _,
      colD_setCol_ne _ (show ¬ "is_dead" = "deal_value" from by decide) _,
      colD_setCol_ne _ (show ¬ "is_won" = "deal_value" from by decide) _,
      colD_setCol_ne _ (show ¬ "is_open" = "deal_value" from by decide) _,
      colD_setCol_ne _ (show ¬ "closure_probability" = "deal_value" from by decide) _,
      colD_setCol_ne _ (show ¬ "sector" = "deal_value" from by decide) _,
      colD_setCol_ne _ (show ¬ "stage_group" = "deal_value" from by decide) _,
      colD_setCol_ne _ (show ¬ "stage" = "deal_value" from by decide) _,
      colD_setCol_self,
      colD_setCol_ne _ (show ¬ "status" = "deal_value_raw" from by decide) _]

theorem foldl_fillna_colD_other {names : List String} {df : DF} {n : String}
    (hn : n ∉ names) :
    ((names.foldl (fun d m => d.setCol m ((d.colD m).cells.map fillnaZero)) df)).colD n =
      df.colD n := by
  induction names generalizing df with
  | nil => rfl
  | cons m ms ih =>
    rw [List.foldl_cons]
    rw [ih (fun hmem => hn (List.mem_cons_of_mem _ hmem))]
    exact colD_setCol_ne _ (fun he => hn (by rw [← he]; exact List.mem_cons_self _ _)) _

theorem foldl_fillna_colD_mem {names : List String} {df : DF} {n : String}
    (hnd : names.Nodup) (hmem : n ∈ names) :
    ((names.foldl (fun d m => d.setCol m ((d.colD m).cells.map fillnaZero)) df)).colD n =
      ⟨n, false, (df.colD n).cells.map fillnaZero⟩ := by
  induction names generalizing df with
  | nil => simp at hmem
  | cons m ms ih =>
    rw [List.foldl_cons]
    rcases List.mem_cons.mp hmem with rfl | hmm2
    · have hms : n ∉ ms := (List.nodup_cons.mp hnd).1
      rw [foldl_fillna_colD_other hms, colD_setCol_self]
    · have hne : ¬ m = n := fun he =>
        (List.nodup_cons.mp hnd).1 (by rw [he]; exact hmm2)
      rw [ih (List.nodup_cons.mp hnd).2 hmm2, colD_setCol_ne _ hne _]

-- ── Claim C1: well-formedness of the cleaned frames ────────────────────

theorem WF_setMap {d : DF} (m k : String) (f : PyVal → PyVal) (hd : WF d) :
    WF (d.setCol m ((d.colD k).cells.map f)) :=
  WF_setCol hd (by rw [List.length_map, colD_length hd])

theorem WF_cleanDealsBody {df1 : DF} (h : WF df1) : WF (cleanDealsBody df1) := by
  unfold cleanDealsBody
  dsimp only
  exact WF_setMap _ _ _ (WF_setMap _ _ _ (WF_setMap _ _ _ (WF_setMap _ _ _ (WF_setMap _ _ _
    (WF_setMap _ _ _ (WF_setMap _ _ _ (WF_setMap _ _ _ (WF_setMap _ _ _ (WF_setMap _ _ _ h)))))))))

theorem WF_foldl_fillna {names : List String} {df : DF} (h : WF df) :
    WF (names.foldl (fun d n => d.setCol n ((d.colD n).cells.map fillnaZero)) df) := by
  induction names generalizing df with
  | nil => exact h
  | cons m ms ih =>
    rw [List.foldl_cons]
    exact ih (WF_setMap _ _ _ h)

theorem WF_cleanWOBody {df0 : DF} (h : WF df0) : WF (cleanWOBody df0) := by
  unfold cleanWOBody
  dsimp only
  exact WF_foldl_fillna (WF_setMap _ _ _ (WF_setMap _ _ _ (WF_setMap _ _ _ (WF_setMap _ _ _
    (WF_setMap _ _ _ (WF_setMap _ _ _ (WF_setMap _ _ _ (WF_setMap _ _ _ (WF_setMap _ _ _ h)))))))))

theorem dealMaskOf_length (rows : List RawRow) : (dealMaskOf rows).length = rows.length := by
  unfold dealMaskOf
  rw [List.length_zipWith, List.length_zipWith, strLowerIsin_length, strLowerIsin_length,
      strLowerIsin_length, colD_length (WF_preMask rows), colD_length (WF_preMask rows),
      colD_length (WF_preMask rows), nrows_preMask]
  simp

theorem WF_cleanDealsOf (rows : List RawRow) : WF (cleanDealsOf rows) := by
  unfold cleanDealsOf
  exact WF_cleanDealsBody (WF_filterRows (WF_preMask rows)
    (by rw [List.length_map, dealMaskOf_length, nrows_preMask]))

theorem WF_cleanWOOf (rows : List RawRow) : WF (cleanWOOf rows) :=
  WF_cleanWOBody (WF_woPre rows)

-- ── Claim C1: every canonical column is present ────────────────────────

theorem body_hasCol_deals_mono {df1 : DF} {n : String} (h : df1.hasCol n = true) :
    (cleanDealsBody df1).hasCol n = true := by
  unfold cleanDealsBody
  dsimp only
  simp [hasCol_setCol, h]

theorem body_hasCol_wo_mono {df0 : DF} {n : String} (h : df0.hasCol n = true) :
    (cleanWOBody df0).hasCol n = true := by
  unfold cleanWOBody
  dsimp only
  apply hasCol_foldl_fillna_mono
  simp [hasCol_setCol, h]

theorem hasCols_cleanDealsOf (rows : List RawRow) :
    ∀ n ∈ dealCanonicalCols, (cleanDealsOf rows).hasCol n = true := by
  intro n hn
  simp only [dealCanonicalCols, List.mem_append] at hn
  rcases hn with hr | hd
  · unfold cleanDealsOf
    apply body_hasCol_deals_mono
    rw [hasCol_filterRows]
    unfold dealsPreMask
    exact hasCol_ensure_self hr
  · unfold cleanDealsOf cleanDealsBody
    dsimp only
    fin_cases hd <;> simp [hasCol_setCol]

theorem hasCols_cleanWOOf (rows : List RawRow) :
    ∀ n ∈ woCanonicalCols, (cleanWOOf rows).hasCol n = true := by
  intro n hn
  simp only [woCanonicalCols, List.mem_append] at hn
  rcases hn with (hr | hf) | hd
  · unfold cleanWOOf
    apply body_hasCol_wo_mono
    unfold woPre
    exact hasCol_ensure_self hr
  · unfold cleanWOOf cleanWOBody
    dsimp only
    apply hasCol_foldl_fillna_mono
    simp only [woFinancialCols] at hf
    fin_cases hf <;> simp [hasCol_setCol]
  · unfold cleanWOOf cleanWOBody
    dsimp only
    apply hasCol_foldl_fillna_mono
    fin_cases hd <;> simp [hasCol_setCol]

-- ── Claim C1: work-order financial columns ─────────────────────────────

theorem cleanWOBody_colD_fin (df0 : DF) :
    ∀ n ∈ woFinancialCols,
      ((cleanWOBody df0).colD n).cells =
        ((df0.colD (n ++ "_raw")).cells.map (fun c => fillnaZero (parse_number c))) := by
  intro n hn
  unfold cleanWOBody
  dsimp only
  simp only [woFinancialCols] at hn
  fin_cases hn
  · rw [@foldl_fillna_colD_mem woFinancialCols _ "amount_excl_gst" (by decide) (by decide),
        colD_setCol_ne _ (show ¬ "is_ongoing" = "amount_excl_gst" from by decide) _,
        colD_setCol_ne _ (show ¬ "is_completed" = "amount_excl_gst" from by decide) _,
        colD_setCol_ne _ (show ¬ "execution_status" = "amount_excl_gst" from by decide) _,
        colD_setCol_ne _ (show ¬ "sector" = "amount_excl_gst" from by decide) _,
        colD_setCol_ne _ (show ¬ "receivable" = "amount_excl_gst" from by decide) _,
        colD_setCol_ne _ (show ¬ "collected" = "amount_excl_gst" from by decide) _,
        colD_setCol_ne _ (show ¬ "billed_incl_gst" = "amount_excl_gst" from by decide) _,
        colD_setCol_ne _ (show ¬ "amount_incl_gst" = "amount_excl_gst" from by decide) _,
        colD_setCol_self]
    dsimp only
    simp only [List.map_map]
    rfl
  · rw [@foldl_fillna_colD_mem woFinancialCols _ "amount_incl_gst" (by decide) (by decide),
        colD_setCol_ne _ (show ¬ "is_ongoing" = "amount_incl_gst" from by decide) _,
        colD_setCol_ne _ (show ¬ "is_completed" = "amount_incl_gst" from by decide) _,
        colD_setCol_ne _ (show ¬ "execution_status" = "amount_incl_gst" from by decide) _,
        colD_setCol_ne _ (show ¬ "sector" = "amount_incl_gst" from by decide) _,
        colD_setCol_ne _ (show ¬ "receivable" = "amount_incl_gst" from by decide) _,
        colD_setCol_ne _ (show ¬ "collected" = "amount_incl_gst" from by decide) _,
        colD_setCol_ne _ (show ¬ "billed_incl_gst" = "amount_incl_gst" from by decide) _,
        colD_setCol_self,
        colD_setCol_ne _ (show ¬ "amount_excl_gst" = "amount_incl_gst_raw" from by decide) _]
    dsimp only
    simp only [List.map_map]
    rfl
  · rw [@foldl_fillna_colD_mem woFinancialCols _ "billed_incl_gst" (by decide) (by decide),
        colD_setCol_ne _ (show ¬ "is_ongoing" = "billed_incl_gst" from by decide) _,
        colD_setCol_ne _ (show ¬ "is_completed" = "billed_incl_gst" from by decide) _,
        colD_setCol_ne _ (show ¬ "execution_status" = "billed_incl_gst" from by decide) _,
        colD_setCol_ne _ (show ¬ "sector" = "billed_incl_gst" from by decide) _,
        colD_setCol_ne _ (show ¬ "receivable" = "billed_incl_gst" from by decide) _,
        colD_setCol_ne _ (show ¬ "collected" = "billed_incl_gst" from by decide) _,
        colD_setCol_self,
        colD_setCol_ne _ (show ¬ "amount_incl_gst" = "billed_incl_gst_raw" from by decide) _,
        colD_setCol_ne _ (show ¬ "amount_excl_gst" = "billed_incl_gst_raw" from by decide) _]
    dsimp only
    simp only [List.map_map]
    rfl
  · rw [@foldl_fillna_colD_mem woFinancialCols _ "collected" (by decide) (by decide),
        colD_setCol_ne _ (show ¬ "is_ongoing" = "collected" from by decide) _,
        colD_setCol_ne _ (show ¬ "is_completed" = "collected" from by decide) _,
        colD_setCol_ne _ (show ¬ "execution_status" = "collected" from by decide) _,
        colD_setCol_ne _ (show ¬ "sector" = "collected" from by decide) _,
        colD_setCol_ne _ (show ¬ "receivable" = "collected" from by decide) _,
        colD_setCol_self,
        colD_setCol_ne _ (show ¬ "billed_incl_gst" = "collected_raw" from by decide) _,
        colD_setCol_ne _ (show ¬ "amount_incl_gst" = "collected_raw" from by decide) _,
        colD_setCol_ne _ (show ¬ "amount_excl_gst" = "collected_raw" from by decide) _]
    dsimp only
    simp only [List.map_map]
    rfl
  · rw [@foldl_fillna_colD_mem woFinancialCols _ "receivable" (by decide) (by decide),
        colD_setCol_ne _ (show ¬ "is_ongoing" = "receivable" from by decide) _,
        colD_setCol_ne _ (show ¬ "is_completed" = "receivable" from by decide) _,
        colD_setCol_ne _ (show ¬ "execution_status" = "receivable" from by decide) _,
        colD_setCol_ne _ (show ¬ "sector" = "receivable" from by decide) _,
        colD_setCol_self,
        colD_setCol_ne _ (show ¬ "collected" = "receivable_raw" from by decide) _,
        colD_setCol_ne _ (show ¬ "billed_incl_gst" = "receivable_raw" from by decide) _,
        colD_setCol_ne _ (show ¬ "amount_incl_gst" = "receivable_raw" from by decide) _,
        colD_setCol_ne _ (show ¬ "amount_excl_gst" = "receivable_raw" from by decide) _]
    dsimp only
    simp only [List.map_map]
    rfl

-- ── Claim C1 ───────────────────────────────────────────────────────────

/-- Claim C1 counterexample: one raw row whose status field (deals) or
execution-status field (work orders) holds the number 1 gives that
column a numeric dtype, so the cleaners raise the pandas
AttributeError at their `.str` accesses instead of returning a cleaned
frame — numeric field values are outside the no-exception envelope the
claim asserts. -/
theorem claim_C1_cex :
    clean_deals [[("deal_status", .num 1)]] =
      .error "AttributeError: Can only use .str accessor with string values!" ∧
    clean_workorders [[("execution status", .num 1)]] =
      .error "AttributeError: Can only use .str accessor with string values!" :=
  ⟨rfl, rfl⟩

/-- Claim C1 (amended): for raw rows whose field values are strings or
nulls, clean_deals and clean_workorders return without an exception;
every canonical deal and work-order column is present in the returned
frame, with one cell per row (missing raw columns are synthesized as
all-null); the deals deal_value column is exactly parse_number over the
filtered raw values, so unparsable values stay null; each of the five
work-order financial columns is parse_number followed by fillna(0.0)
over its raw column, hence every financial cell is a non-null float and
a missing or unparsable raw value becomes 0.0.  (On the claim's
original envelope, which also admits numeric field values, both
cleaners can raise — see the counterexample.) -/
theorem claim_C1 (rows : List RawRow) (h : GoodRows rows) :
    clean_deals rows = .ok (cleanDealsOf rows) ∧
    clean_workorders rows = .ok (cleanWOOf rows) ∧
    (∀ n ∈ dealCanonicalCols, (cleanDealsOf rows).hasCol n = true) ∧
    (∀ n ∈ woCanonicalCols, (cleanWOOf rows).hasCol n = true) ∧
    WF (cleanDealsOf rows) ∧
    WF (cleanWOOf rows) ∧
    ((cleanDealsOf rows).colD "deal_value").cells =
      (((dealsPreMask rows).filterRows ((dealMaskOf rows).map not)).colD
        "deal_value_raw").cells.map parse_number ∧
    (∀ n ∈ woFinancialCols,
      ((cleanWOOf rows).colD n).cells =
        ((woPre rows).colD (n ++ "_raw")).cells.map (fun c => fillnaZero (parse_number c))) ∧
    (∀ n ∈ woFinancialCols, ∀ x ∈ ((cleanWOOf rows).colD n).cells,
      isNA x = false ∧ isFloatCell x = true) ∧
    (∀ c : PyVal, isNA (parse_number c) = true → fillnaZero (parse_number c) = .num 0) := by
  refine ⟨clean_deals_ok_of_good h, clean_workorders_ok_of_good h,
    hasCols_cleanDealsOf rows, hasCols_cleanWOOf rows,
    WF_cleanDealsOf rows, WF_cleanWOOf rows,
    body_colD_deal_value _, fun n hn => cleanWOBody_colD_fin (woPre rows) n hn, ?_, ?_⟩
  · intro n hn x hx
    rw [show ((cleanWOOf rows).colD n).cells =
          ((woPre rows).colD (n ++ "_raw")).cells.map (fun c => fillnaZero (parse_number c))
        from cleanWOBody_colD_fin (woPre rows) n hn] at hx
    rcases List.mem_map.mp hx with ⟨c, -, rfl⟩
    exact ⟨fillna_parse_notNA c, fillna_parse_float c⟩
  · intro c hc
    simp [fillnaZero, hc]

/-- Witness for claim C1 at the concrete three-row scenario: its cells
are all strings or nulls, so both cleaners succeed on it. -/
theorem claim_C1_wit :
    GoodRows c3rows ∧
    clean_deals c3rows = .ok (cleanDealsOf c3rows) ∧
    clean_workorders c3rows = .ok (cleanWOOf c3rows) := by
  have hg : GoodRows c3rows := by
    unfold GoodRows
    decide
  exact ⟨hg, (claim_C1 c3rows hg).1, (claim_C1 c3rows hg).2.1⟩

-- ── Claim C6 ───────────────────────────────────────────────────────────

set_option maxRecDepth 6000 in
set_option maxHeartbeats 1000000 in
/-- Claim C6 counterexample: the truncation note is attached to the
payload unconditionally, even for a 2-row board that is far below the
30-row cap, and the tool_result trace entry records only rows_fetched
(the total), never a returned_rows field — returned_rows=30 in the
45-row scenario appears only inside the payload. -/
theorem claim_C6_cex :
    pyGet (okPayload (_run_tool "get_board_items" [("board", PyVal.s "deals")]
        (mondayWith board2) "D" "W")) "total_rows" .pynone = .num ((2 : ℕ) : ℚ) ∧
    hasKey "note" (okPayload (_run_tool "get_board_items" [("board", PyVal.s "deals")]
        (mondayWith board2) "D" "W")) = true ∧
    pyGet (okPayload (_run_tool "get_board_items" [("board", PyVal.s "deals")]
        (mondayWith board45) "D" "W")) "total_rows" .pynone = .num ((45 : ℕ) : ℚ) ∧
    pyGet (okPayload (_run_tool "get_board_items" [("board", PyVal.s "deals")]
        (mondayWith board45) "D" "W")) "returned_rows" .pynone = .num ((30 : ℕ) : ℚ) ∧
    ((processOneCall (mondayWith board2) "D" "W" ⟨[], [], none, none⟩
        ⟨"t1", "get_board_items", some [("board", PyVal.s "deals")]⟩).trace.map
      (fun e => hasKey "returned_rows" e.content)) = [false, false] ∧
    pyGet ((processOneCall (mondayWith board2) "D" "W" ⟨[], [], none, none⟩
        ⟨"t1", "get_board_items", some [("board", PyVal.s "deals")]⟩).trace.getD 1
          ⟨"", "", .pynone⟩).content "rows_fetched" .pynone = .num ((2 : ℕ) : ℚ) :=
  ⟨rfl, rfl, rfl, rfl, rfl, rfl⟩

/-- Claim C6 (amended): every successful get_board_items call returns a
payload holding the cleaned collection's total row count, the returned
row count, and a prefix of at most 30 cleaned rows; the truncation note
however is attached unconditionally rather than only when the total
exceeds 30, and the trace entry records the total as rows_fetched while
returned_rows appears only in the payload (see the counterexample). -/
theorem claim_C6 (monday : MondayOracle) (dealsId woId name : String)
    (args : List (String × PyVal)) (b : String) (raw : List RawRow) (df : DF)
    (hname : name = "get_board_items")
    (hb : boardName args = .ok b)
    (hraw : monday.get_all_items (if b == "deals" then dealsId else woId) = .ok raw)
    (hclean : (if b == "deals" then clean_deals raw else clean_workorders raw) = .ok df) :
    _run_tool name args monday dealsId woId =
      .ok (.dict
        [("board", .s b),
         ("total_rows", .num (df.toRecordsNone.length : ℚ)),
         ("returned_rows", .num ((df.toRecordsNone.take 30).length : ℚ)),
         ("note", .s itemsNote),
         ("rows", .list ((df.toRecordsNone.take 30).map PyVal.dict))]) ∧
    (df.toRecordsNone.take 30).length = min df.toRecordsNone.length 30 ∧
    (df.toRecordsNone.take 30).length ≤ 30 := by
  subst hname
  refine ⟨?_, by rw [List.length_take, Nat.min_comm],
    by rw [List.length_take]; exact Nat.min_le_left _ _⟩
  unfold _run_tool
  rw [if_neg (by decide), if_pos (by decide)]
  rw [hb, ebind_ok, hraw, ebind_ok]
  dsimp only
  by_cases hbd : (b == "deals") = true
  · rw [if_pos hbd] at hclean
    rw [if_pos hbd, hclean, ebind_ok]
  · rw [if_neg hbd] at hclean
    rw [if_neg hbd, hclean, ebind_ok]

set_option maxRecDepth 4000 in
set_option maxHeartbeats 1000000 in
/-- Witness for claim C6 on a 45-row deals board. -/
theorem claim_C6_wit :
    _run_tool "get_board_items" [("board", PyVal.s "deals")] (mondayWith board45) "D" "W" =
      .ok (.dict
        [("board", .s "deals"),
         ("total_rows", .num ((okDF (clean_deals board45)).toRecordsNone.length : ℚ)),
         ("returned_rows",
          .num (((okDF (clean_deals board45)).toRecordsNone.take 30).length : ℚ)),
         ("note", .s itemsNote),
         ("rows", .list (((okDF (clean_deals board45)).toRecordsNone.take 30).map PyVal.dict))]) ∧
    ((okDF (clean_deals board45)).toRecordsNone.take 30).length =
      min (okDF (clean_deals board45)).toRecordsNone.length 30 ∧
    ((okDF (clean_deals board45)).toRecordsNone.take 30).length ≤ 30 :=
  claim_C6 (mondayWith board45) "D" "W" "get_board_items" [("board", PyVal.s "deals")]
    "deals" board45 (okDF (clean_deals board45)) rfl rfl rfl rfl

-- ── Claim C7 ───────────────────────────────────────────────────────────

theorem queryLoop_limit (model : ℕ → GroqMsg) (monday : MondayOracle)
    (dealsId woId : String) :
    ∀ (fuel round : ℕ) (st : LoopState),
      (∀ i, round ≤ i → i < round + fuel →
        ((model i).finish == "stop" || (model i).tool_calls.isEmpty) = false) →
      (queryLoop model monday dealsId woId fuel round st).answer = loopLimitAnswer ∧
      (queryLoop model monday dealsId woId fuel round st).quality = none := by
  intro fuel
  induction fuel with
  | zero => intro round st h; exact ⟨rfl, rfl⟩
  | succ fuel ih =>
    intro round st h
    have h0 : ((model round).finish == "stop" || (model round).tool_calls.isEmpty) = false :=
      h round (Nat.le_refl _) (by omega)
    simp only [queryLoop]
    split
    · rename_i hc
      rw [h0] at hc
      exact Bool.noConfusion hc
    · exact ih (round + 1) _ (fun i h1 h2 => h i (by omega) (by omega))

theorem queryLoop_agree (model g : ℕ → GroqMsg) (monday : MondayOracle)
    (dealsId woId : String) :
    ∀ (fuel round : ℕ) (st : LoopState),
      (∀ i, round ≤ i → i < round + fuel → g i = model i) →
      queryLoop g monday dealsId woId fuel round st =
        queryLoop model monday dealsId woId fuel round st := by
  intro fuel
  induction fuel with
  | zero => intro round st h; rfl
  | succ fuel ih =>
    intro round st h
    have h0 : g round = model round := h round (Nat.le_refl _) (by omega)
    simp only [queryLoop]
    rw [h0]
    split
    · rfl
    · exact ih (round + 1) _ (fun i h1 h2 => h i (by omega) (by omega))

/-- Claim C7: the agent loop performs at most 8 rounds of model calls —
when every one of the first 8 model turns requests tools, the query
returns the fixed loop-limit answer with a null quality field, and the
result never depends on model turns beyond the first 8, so the loop
terminates for every model behaviour. -/
theorem claim_C7 (model : ℕ → GroqMsg) (monday : MondayOracle) (dealsId woId : String)
    (user_message : String) (history : List (String × String))
    (htool : ∀ i, i < 8 →
      ((model i).finish == "stop" || (model i).tool_calls.isEmpty) = false) :
    (query model monday dealsId woId user_message history).answer = loopLimitAnswer ∧
    (query model monday dealsId woId user_message history).quality = none ∧
    (∀ g : ℕ → GroqMsg, (∀ i, i < 8 → g i = model i) →
      query g monday dealsId woId user_message history =
        query model monday dealsId woId user_message history) := by
  obtain ⟨ha, hq⟩ := queryLoop_limit model monday dealsId woId 8 0
    ⟨[ChatMsg.plain "system" SYSTEM_PROMPT] ++
       history.map (fun p => ChatMsg.plain p.1 p.2) ++
       [ChatMsg.plain "user" user_message], [], none, none⟩
    (fun i h1 h2 => htool i (by omega))
  refine ⟨ha, hq, ?_⟩
  intro g hg
  exact queryLoop_agree model g monday dealsId woId 8 0
    ⟨[ChatMsg.plain "system" SYSTEM_PROMPT] ++
       history.map (fun p => ChatMsg.plain p.1 p.2) ++
       [ChatMsg.plain "user" user_message], [], none, none⟩
    (fun i h1 h2 => hg i (by omega))

/-- Witness for claim C7: a model that requests a column listing on
every turn drives the query to the loop-limit answer with no quality
report. -/
theorem claim_C7_wit :
    (query constToolModel (mondayWith board2) "D" "W" "q" []).answer = loopLimitAnswer ∧
    (query constToolModel (mondayWith board2) "D" "W" "q" []).quality = none := by
  obtain ⟨ha, hq, -⟩ := claim_C7 constToolModel (mondayWith board2) "D" "W" "q" []
    (fun i hi => rfl)
  exact ⟨ha, hq⟩

-- ── Claim C8 ───────────────────────────────────────────────────────────

/-- Claim C8: tool dispatch never lets an exception escape a round — a
request naming an unknown tool yields the structured payload
error "Unknown tool: name" instead of an exception; when a tool raises,
the dispatch boundary converts the exception into an error dict that is
fed back to the model as that call's tool message, records a tool_error
trace entry, and leaves the captured frames unchanged; and the loop
continues — concretely, a failing tool call in round one still yields
round two's answer, with the tool_error entry in the trace. -/
theorem claim_C8 :
    (∀ (name : String) (args : List (String × PyVal)) (monday : MondayOracle)
       (dealsId woId : String),
      name ≠ "get_board_items" → name ≠ "get_board_columns" →
      _run_tool name args monday dealsId woId =
        .ok (.dict [("error", .s ("Unknown tool: " ++ name))])) ∧
    (∀ (monday : MondayOracle) (dealsId woId : String) (st : LoopState) (tc : ToolCall)
       (e : String),
      _run_tool tc.name (tc.args?.getD []) monday dealsId woId = .error e →
      processOneCall monday dealsId woId st tc =
        ⟨st.messages ++ [.tool tc.id (.dict [("error", .s e)])],
         st.trace ++ [toolCallEvent tc (tc.args?.getD [])] ++ [toolErrorEvent tc.name e],
         st.fetched_deals, st.fetched_wo⟩) ∧
    (query twoRoundModel (mondayWith board2) "D" "W" "q" []).answer = "done" ∧
    ((query twoRoundModel (mondayWith board2) "D" "W" "q" []).trace.map TraceEvent.kind) =
      ["tool_call", "tool_error", "answer"] := by
  refine ⟨?_, ?_, rfl, rfl⟩
  · intro name args monday dealsId woId h1 h2
    unfold _run_tool
    rw [if_neg (by simp [h2]), if_neg (by simp [h1])]
  · intro monday dealsId woId st tc e he
    unfold processOneCall
    dsimp only
    rw [he]
    rfl

/-- Witness for claim C8: an unknown tool and a failing known tool,
each dispatched at a concrete state. -/
theorem claim_C8_wit :
    _run_tool "foo" [] (mondayWith board2) "D" "W" =
      .ok (.dict [("error", PyVal.s ("Unknown tool: " ++ "foo"))]) ∧
    processOneCall (mondayWith board2) "D" "W" ⟨[], [], none, none⟩
        ⟨"c1", "get_board_columns", some [("board", PyVal.s "deals")]⟩ =
      ⟨([] : List ChatMsg) ++ [.tool "c1" (.dict [("error", PyVal.s "network")])],
       ([] : List TraceEvent) ++
         [toolCallEvent ⟨"c1", "get_board_columns", some [("board", PyVal.s "deals")]⟩
            [("board", PyVal.s "deals")]] ++
         [toolErrorEvent "get_board_columns" "network"],
       none, none⟩ :=
  ⟨claim_C8.1 "foo" [] (mondayWith board2) "D" "W" (by decide) (by decide),
   claim_C8.2.1 (mondayWith board2) "D" "W" ⟨[], [], none, none⟩
     ⟨"c1", "get_board_columns", some [("board", PyVal.s "deals")]⟩ "network" rfl⟩

-- ── Claim C10: row-count bounds ────────────────────────────────────────

theorem clean_deals_nrows_le {rows : List RawRow} {df : DF}
    (h : clean_deals rows = .ok df) : df.nrows ≤ rows.length := by
  obtain ⟨mask, hm, rfl⟩ := clean_deals_ok_inv h
  rw [nrows_cleanDealsBody]
  show (mask.map not).count true ≤ rows.length
  calc (mask.map not).count true = mask.count false := count_notMap mask
    _ ≤ mask.length := List.count_le_length _ _
    _ = rows.length := dealMask_length hm

theorem clean_wo_nrows_le {rows : List RawRow} {df : DF}
    (h : clean_workorders rows = .ok df) : df.nrows ≤ rows.length := by
  have hb := clean_workorders_ok_inv h
  subst hb
  rw [nrows_cleanWOBody, nrows_woPre]

theorem run_tool_items_rows_le {args : List (String × PyVal)} {monday : MondayOracle}
    {dealsId woId : String} {r : PyVal}
    (h : _run_tool "get_board_items" args monday dealsId woId = .ok r) :
    (pyRecords (pyGet r "rows" .pynone)).length ≤ 30 := by
  unfold _run_tool at h
  rw [if_neg (by decide), if_pos (by decide)] at h
  obtain ⟨b, hb, h⟩ := bind_ok_inv h
  dsimp only at h
  obtain ⟨raw, hraw, h⟩ := bind_ok_inv h
  have key : ∀ df : DF,
      Except.ok (PyVal.dict
        [("board", .s b),
         ("total_rows", .num (df.toRecordsNone.length : ℚ)),
         ("returned_rows", .num ((df.toRecordsNone.take 30).length : ℚ)),
         ("note", .s itemsNote),
         ("rows", .list ((df.toRecordsNone.take 30).map PyVal.dict))]) =
        (.ok r : Except String PyVal) →
      (pyRecords (pyGet r "rows" .pynone)).length ≤ 30 := by
    intro df h2
    injection h2 with h2
    subst h2
    have hg : pyGet (PyVal.dict
        [("board", .s b),
         ("total_rows", .num (df.toRecordsNone.length : ℚ)),
         ("returned_rows", .num ((df.toRecordsNone.take 30).length : ℚ)),
         ("note", .s itemsNote),
         ("rows", .list ((df.toRecordsNone.take 30).map PyVal.dict))]) "rows" .pynone =
        .list ((df.toRecordsNone.take 30).map PyVal.dict) := rfl
    rw [hg]
    simp only [pyRecords]
    rw [List.length_map, List.length_map, List.length_take]
    exact Nat.min_le_left _ _
  by_cases hbd : (b == "deals") = true
  · rw [if_pos hbd] at h
    obtain ⟨df, hdf, h⟩ := bind_ok_inv h
    exact key df h
  · rw [if_neg hbd] at h
    obtain ⟨df, hdf, h⟩ := bind_ok_inv h
    exact key df h

theorem okBranch_fetch {fn : String} {args : List (String × PyVal)} {result : PyVal}
    {st st2 : LoopState} {rs : PyVal}
    (h : okBranch fn args result st = .ok (st2, rs)) :
    (st2.fetched_deals = st.fetched_deals ∨ st2.fetched_deals = some emptyDF ∨
      (fn = "get_board_items" ∧ ∃ df, st2.fetched_deals = some df ∧
        clean_deals (pyRecords (pyGet result "rows" .pynone)) = .ok df)) ∧
    (st2.fetched_wo = st.fetched_wo ∨ st2.fetched_wo = some emptyDF ∨
      (fn = "get_board_items" ∧ ∃ df, st2.fetched_wo = some df ∧
        clean_workorders (pyRecords (pyGet result "rows" .pynone)) = .ok df)) := by
  unfold okBranch at h
  by_cases c1 : (fn == "get_board_items" && hasKey "rows" result) = true
  · have hfn : fn = "get_board_items" := by
      rw [Bool.and_eq_true] at c1
      exact eq_of_beq c1.1
    rw [if_pos c1] at h
    dsimp only at h
    cases hlk : List.lookup "board" args with
    | none =>
      rw [hlk] at h
      dsimp only at h
      rw [ebind_ok] at h
      injection h with h
      rw [Prod.mk.injEq] at h
      obtain ⟨h1, -⟩ := h
      subst h1
      exact ⟨Or.inl rfl, Or.inl rfl⟩
    | some v =>
      rw [hlk] at h
      cases v
      · rename_i bs
        dsimp only at h
        by_cases hbd : (bs == "deals") = true
        · rw [if_pos hbd] at h
          by_cases hemp : (pyRecords (pyGet result "rows" PyVal.pynone)).isEmpty = true
          · rw [if_pos hemp] at h
            rw [ebind_ok] at h
            rw [ebind_ok] at h
            injection h with h
            rw [Prod.mk.injEq] at h
            obtain ⟨h1, -⟩ := h
            subst h1
            exact ⟨Or.inr (Or.inl rfl), Or.inl rfl⟩
          · rw [if_neg hemp] at h
            obtain ⟨df, hdf, h⟩ := bind_ok_inv h
            rw [ebind_ok] at h
            injection h with h
            rw [Prod.mk.injEq] at h
            obtain ⟨h1, -⟩ := h
            subst h1
            exact ⟨Or.inr (Or.inr ⟨hfn, df, rfl, hdf⟩), Or.inl rfl⟩
        · rw [if_neg hbd] at h
          by_cases hbw : (bs == "workorders") = true
          · rw [if_pos hbw] at h
            by_cases hemp : (pyRecords (pyGet result "rows" PyVal.pynone)).isEmpty = true
            · rw [if_pos hemp] at h
              rw [ebind_ok] at h
              rw [ebind_ok] at h
              injection h with h
              rw [Prod.mk.injEq] at h
              obtain ⟨h1, -⟩ := h
              subst h1
              exact ⟨Or.inl rfl, Or.inr (Or.inl rfl)⟩
            · rw [if_neg hemp] at h
              obtain ⟨df, hdf, h⟩ := bind_ok_inv h
              rw [ebind_ok] at h
              injection h with h
              rw [Prod.mk.injEq] at h
              obtain ⟨h1, -⟩ := h
              subst h1
              exact ⟨Or.inl rfl, Or.inr (Or.inr ⟨hfn, df, rfl, hdf⟩)⟩
          · rw [if_neg hbw] at h
            rw [ebind_ok] at h
            injection h with h
            rw [Prod.mk.injEq] at h
            obtain ⟨h1, -⟩ := h
            subst h1
            exact ⟨Or.inl rfl, Or.inl rfl⟩
      all_goals
        dsimp only at h
        rw [ebind_ok] at h
        injection h with h
        rw [Prod.mk.injEq] at h
        obtain ⟨h1, -⟩ := h
        subst h1
        exact ⟨Or.inl rfl, Or.inl rfl⟩
  · rw [if_neg c1] at h
    by_cases c2 : (fn == "get_board_columns" && hasKey "columns" result) = true
    · rw [if_pos c2] at h
      obtain ⟨n, hn, h⟩ := bind_ok_inv h
      dsimp only at h
      injection h with h
      rw [Prod.mk.injEq] at h
      obtain ⟨h1, -⟩ := h
      subst h1
      exact ⟨Or.inl rfl, Or.inl rfl⟩
    · rw [if_neg c2] at h
      injection h with h
      rw [Prod.mk.injEq] at h
      obtain ⟨h1, -⟩ := h
      subst h1
      exact ⟨Or.inl rfl, Or.inl rfl⟩

theorem processOneCall_bounded (monday : MondayOracle) (dealsId woId : String)
    (st : LoopState) (tc : ToolCall) (h : boundedFetch st) :
    boundedFetch (processOneCall monday dealsId woId st tc) := by
  unfold processOneCall
  dsimp only
  split
  · rename_i st2 rs heq
    obtain ⟨r, hr, hb⟩ := bind_ok_inv heq
    obtain ⟨hd, hw⟩ := okBranch_fetch hb
    refine ⟨fun df hdf => ?_, fun df hdf => ?_⟩
    · rcases hd with heq2 | heq2 | ⟨hfn, dfx, heq2, hclean⟩
      · exact h.1 df (Eq.trans heq2.symm hdf)
      · rw [show df = emptyDF from (Option.some.inj (Eq.trans heq2.symm hdf)).symm]
        decide
      · rw [show df = dfx from (Option.some.inj (Eq.trans heq2.symm hdf)).symm]
        rw [hfn] at hr
        exact Nat.le_trans (clean_deals_nrows_le hclean) (run_tool_items_rows_le hr)
    · rcases hw with heq2 | heq2 | ⟨hfn, dfx, heq2, hclean⟩
      · exact h.2 df (Eq.trans heq2.symm hdf)
      · rw [show df = emptyDF from (Option.some.inj (Eq.trans heq2.symm hdf)).symm]
        decide
      · rw [show df = dfx from (Option.some.inj (Eq.trans heq2.symm hdf)).symm]
        rw [hfn] at hr
        exact Nat.le_trans (clean_wo_nrows_le hclean) (run_tool_items_rows_le hr)
  · exact h

theorem foldl_processOneCall_bounded (monday : MondayOracle) (dealsId woId : String)
    (tcs : List ToolCall) :
    ∀ st : LoopState, boundedFetch st →
      boundedFetch (tcs.foldl (processOneCall monday dealsId woId) st) := by
  induction tcs with
  | nil => intro st h; exact h
  | cons tc tcs ih =>
    intro st h
    rw [List.foldl_cons]
    exact ih _ (processOneCall_bounded monday dealsId woId st tc h)

theorem queryLoop_quality_bounded (model : ℕ → GroqMsg) (monday : MondayOracle)
    (dealsId woId : String) :
    ∀ (fuel round : ℕ) (st : LoopState), boundedFetch st →
      ∀ q, (queryLoop model monday dealsId woId fuel round st).quality = some q →
        q.deals_rows ≤ 30 ∧ q.wo_rows ≤ 30 := by
  intro fuel
  induction fuel with
  | zero =>
    intro round st hb q hq
    exact Option.noConfusion hq
  | succ fuel ih =>
    intro round st hb q hq
    simp only [queryLoop] at hq
    by_cases hc : ((model round).finish == "stop" || (model round).tool_calls.isEmpty) = true
    · rw [if_pos hc] at hq
      unfold finalizeAnswer at hq
      dsimp only at hq
      by_cases hs : (st.fetched_deals.isSome || st.fetched_wo.isSome) = true
      · rw [if_pos hs] at hq
        injection hq with hq
        subst hq
        constructor
        · show (st.fetched_deals.getD emptyDF).nrows ≤ 30
          cases hfd : st.fetched_deals with
          | none => decide
          | some d => exact hb.1 d hfd
        · show (st.fetched_wo.getD emptyDF).nrows ≤ 30
          cases hfw : st.fetched_wo with
          | none => decide
          | some d => exact hb.2 d hfw
      · rw [if_neg hs] at hq
        exact Option.noConfusion hq
    · rw [if_neg hc] at hq
      exact ih (round + 1) _
        (foldl_processOneCall_bounded monday dealsId woId (model round).tool_calls
          ⟨st.messages ++ [.assistant ((model round).content.getD "") (model round).tool_calls],
           st.trace, st.fetched_deals, st.fetched_wo⟩ hb)
        q hq

/-- Claim C10: after a successful get_board_items call, the frame the
loop retains for the quality report is obtained by re-running the
cleaner on the payload's truncated rows (or is the empty frame when the
payload is empty), never the full fetched collection; the payload holds
at most 30 records; hence every quality report produced by a query
counts at most 30 rows per board. -/
theorem claim_C10 :
    (∀ (fn : String) (args : List (String × PyVal)) (result : PyVal)
       (st st2 : LoopState) (rs : PyVal),
      okBranch fn args result st = .ok (st2, rs) →
      (st2.fetched_deals = st.fetched_deals ∨ st2.fetched_deals = some emptyDF ∨
        (fn = "get_board_items" ∧ ∃ df, st2.fetched_deals = some df ∧
          clean_deals (pyRecords (pyGet result "rows" .pynone)) = .ok df)) ∧
      (st2.fetched_wo = st.fetched_wo ∨ st2.fetched_wo = some emptyDF ∨
        (fn = "get_board_items" ∧ ∃ df, st2.fetched_wo = some df ∧
          clean_workorders (pyRecords (pyGet result "rows" .pynone)) = .ok df))) ∧
    (∀ (args : List (String × PyVal)) (monday : MondayOracle) (dealsId woId : String)
       (r : PyVal),
      _run_tool "get_board_items" args monday dealsId woId = .ok r →
      (pyRecords (pyGet r "rows" .pynone)).length ≤ 30) ∧
    (∀ (model : ℕ → GroqMsg) (monday : MondayOracle) (dealsId woId um : String)
       (history : List (String × String)) (q : QReport),
      (query model monday dealsId woId um history).quality = some q →
      q.deals_rows ≤ 30 ∧ q.wo_rows ≤ 30) := by
  refine ⟨fun fn args result st st2 rs h => okBranch_fetch h,
    fun args monday dealsId woId r h => run_tool_items_rows_le h, ?_⟩
  intro model monday dealsId woId um history q hq
  exact queryLoop_quality_bounded model monday dealsId woId 8 0
    ⟨[ChatMsg.plain "system" SYSTEM_PROMPT] ++
       history.map (fun p => ChatMsg.plain p.1 p.2) ++
       [ChatMsg.plain "user" um], [], none, none⟩
    ⟨fun df hdf => Option.noConfusion hdf, fun df hdf => Option.noConfusion hdf⟩ q hq

set_option maxRecDepth 4000 in
set_option maxHeartbeats 1000000 in
/-- Witness for claim C10: fetching a deals board and then answering
yields a quality report counting at most 30 rows per board. -/
theorem claim_C10_wit :
    (query fetchThenStopModel (mondayWith board2) "D" "W" "q" []).quality =
      some (qOf (query fetchThenStopModel (mondayWith board2) "D" "W" "q" [])) ∧
    (qOf (query fetchThenStopModel (mondayWith board2) "D" "W" "q" [])).deals_rows ≤ 30 ∧
    (qOf (query fetchThenStopModel (mondayWith board2) "D" "W" "q" [])).wo_rows ≤ 30 := by
  have h : (query fetchThenStopModel (mondayWith board2) "D" "W" "q" []).quality =
      some (qOf (query fetchThenStopModel (mondayWith board2) "D" "W" "q" [])) := rfl
  exact ⟨h, (claim_C10.2.2 fetchThenStopModel (mondayWith board2) "D" "W" "q" [] _ h).1,
    (claim_C10.2.2 fetchThenStopModel (mondayWith board2) "D" "W" "q" [] _ h).2⟩

end Skylark
